import Mathlib

/-!
Verification development for the `dircheck` directory-integrity tool
(`src/dircheck.py`).  The Python program is shallowly embedded below:

* a filesystem entry (`os.lstat` view) is an `FSNode`; a directory carries its
  children in OS listing order;
* Python dict rows (`{'filename': ..., 'type': ..., ...}`) are association
  lists `Record` with unique keys; `dget`/`dgetD` model `d[k]` / `d.get(k, '')`
  and `dictEq` models Python dict equality;
* the `csv` standard-library layer is modelled at the structured level: a file
  is a list of rows (each a list of field strings); the delimiter-escaping
  performed by the `csv` module round-trips field strings exactly and is not
  re-modelled;
* `hashlib` digests are modelled by `hexdigest`, an injective function of the
  algorithm name and the absorbed byte stream; only which bytes are absorbed,
  never the concrete hex text, matters to any property below;
* `sys.exit(msg)` is `.error (.exitErr msg)`; an uncaught Python exception
  (e.g. `OSError` when opening an unreadable file) is `.error .exn`;
* the display-only byte counter `scan_data_size` and the interactive
  "accept changes" flow of `hash_action` are not modelled; `check` mode is
  modelled from scan through `compare_csv` to the final exit status.
-/

/-- A Python dict with string keys and values, as an association list in
insertion order (keys unique for every dict the program builds). -/
abbrev Record := List (String × String)

/-- One physical line of the snapshot file, already split into fields. -/
abbrev Row := List String

/-- Python `d[k]` / `k in d` lookup (first matching key). -/
def dget (r : Record) (k : String) : Option String :=
  match r with
  | [] => none
  | (k1, v) :: rest => if k1 = k then some v else dget rest k

/-- Python `d.get(k, '')`. -/
def dgetD (r : Record) (k : String) : String := (dget r k).getD ""

/-- The keys of a dict, in insertion order. -/
def keysOf (r : Record) : List String := r.map Prod.fst

/-- Python dict equality: same key set with equal values (keys are unique in
every dict the program compares, so first-match lookup agrees with dicts). -/
def dictEq (a b : Record) : Bool :=
  a.all (fun kv => dget b kv.1 == some kv.2) &&
  b.all (fun kv => dget a kv.1 == some kv.2)

/-- `csv_fieldnames` from dircheck.py. -/
def csv_fieldnames : List String :=
  ["filename", "type", "mtime", "link", "size", "md5", "sha256"]

/-- `csv_humanfieldnames` from dircheck.py. -/
def csv_humanfieldnames (f : String) : String :=
  if f = "filename" then "filename"
  else if f = "type" then "type"
  else if f = "mtime" then "mtime"
  else if f = "link" then "symbolic link target"
  else if f = "size" then "size (bytes)"
  else if f = "md5" then "md5 sum"
  else if f = "sha256" then "sha256 sum"
  else ""

/-- How a run of dircheck.py ends abnormally: `exitErr msg` is
`sys.exit(msg)`; `exn` is an uncaught exception escaping `Main`. -/
inductive RunError where
  | exn : RunError
  | exitErr (msg : String) : RunError
deriving DecidableEq, Repr

/-- `lstat` metadata of one entry: `st_mtime_ns` and `st_size`. -/
structure FMeta where
  mtime_ns : Int
  size : Nat
deriving DecidableEq, Repr

/-- A filesystem subtree as `os.listdir`/`os.lstat` present it to the scanner.
Directory children are listed in OS listing order.  A regular file records
whether opening it for reading succeeds (`readable`) and its byte content. -/
inductive FSNode where
  | file (meta : FMeta) (readable : Bool) (content : List Nat) : FSNode
  | dir (meta : FMeta) (entries : List (String × FSNode)) : FSNode
  | lnk (meta : FMeta) (target : String) : FSNode
  | chr (meta : FMeta) : FSNode
  | blk (meta : FMeta) : FSNode
  | fifo (meta : FMeta) : FSNode
  | sock (meta : FMeta) : FSNode

/-- The `stat.S_IS*` classification chain of `scan_file`. -/
def nodeType : FSNode → String
  | .dir _ _ => "dir"
  | .chr _ => "chr"
  | .blk _ => "blk"
  | .file _ _ _ => "file"
  | .fifo _ => "fifo"
  | .lnk _ _ => "lnk"
  | .sock _ => "sock"

/-- The lstat result of a node. -/
def nodeMeta : FSNode → FMeta
  | .file m _ _ => m
  | .dir m _ => m
  | .lnk m _ => m
  | .chr m => m
  | .blk m => m
  | .fifo m => m
  | .sock m => m

/-- `hashlib` digest abstraction: hexdigest of the absorbed byte stream,
injective in (algorithm, absorbed bytes).  Only the absorbed stream matters
to the program's logic. -/
def hexdigest (alg : String) (absorbed : List Nat) : String :=
  alg ++ ":" ++ toString absorbed

/-- The 1 MB reusable read buffer size (`hashbuf`). -/
def bufSize : Nat := 1048576

/-- The `f.readinto(hashbuf)` loop of `hash_file`: successive chunks of at
most `bufSize` bytes until a zero-size read.  The fuel argument is a
termination device; `readChunks` passes enough fuel for the whole content. -/
def readChunksFuel : Nat → List Nat → List (List Nat)
  | _, [] => []
  | 0, _ => []
  | fuel + 1, c => c.take bufSize :: readChunksFuel fuel (c.drop bufSize)

/-- The sequence of non-empty reads one `hash_file` call performs. -/
def readChunks (c : List Nat) : List (List Nat) := readChunksFuel c.length c

/-- `Main.hash_file`: open the file (raising if unreadable), absorb it chunk
by chunk into one digest, return the hexdigest. -/
def hash_file (readable : Bool) (content : List Nat) (hash_type : String) :
    Except RunError String :=
  if readable then
    .ok (hexdigest hash_type ((readChunks content).foldl (fun acc chunk => acc ++ chunk) []))
  else .error .exn

/-- `os.path.join` of a relative prefix and a child name, as
`os.path.relpath` yields it for paths built by the scanner. -/
def joinRel (pre : String) (name : String) : String :=
  if pre = "" then name else pre ++ "/" ++ name

/-- `Main.scan_file` for the entry at relative path `relname` (directories
get the trailing-slash decoration).  Note the source populates `size` for
every entry kind, and digests/links only for files/symlinks. -/
def scan_file (relname : String) (node : FSNode) : Except RunError Record := do
  let type := nodeType node
  let relfilename := if type = "dir" then relname ++ "/" else relname
  let link_target :=
    match node with
    | .lnk _ target => target
    | _ => ""
  let md5sum ← match node with
    | .file _ readable content => hash_file readable content "md5"
    | _ => pure ""
  let sha256sum ← match node with
    | .file _ readable content => hash_file readable content "sha256"
    | _ => pure ""
  pure [("filename", relfilename), ("type", type),
        ("mtime", toString (nodeMeta node).mtime_ns),
        ("link", link_target),
        ("size", toString (nodeMeta node).size),
        ("md5", md5sum), ("sha256", sha256sum)]

mutual
/-- `Main.scan_dir`: walk one directory's listing.  `csvAbs` is
`os.path.abspath(self.csv_file)` and `dirAbs` the absolute path of the
directory being walked, both as canonical component lists (equality of
canonical absolute path strings is equality of component lists).  An entry
whose absolute path equals `csvAbs` is skipped before being recorded. -/
def scan_dir (csvAbs dirAbs : List String) (dirRel : String) :
    List (String × FSNode) → Except RunError (List Record)
  | [] => .ok []
  | (name, node) :: rest =>
    if dirAbs ++ [name] = csvAbs then
      scan_dir csvAbs dirAbs dirRel rest
    else do
      let fi ← scan_file (joinRel dirRel name) node
      let sub ← scan_node_children csvAbs (dirAbs ++ [name]) (joinRel dirRel name) node
      let restDb ← scan_dir csvAbs dirAbs dirRel rest
      pure (fi :: (sub ++ restDb))

/-- The recursion step of `scan_dir`: descend into a directory entry right
after recording it; other kinds contribute nothing further. -/
def scan_node_children (csvAbs dirAbs : List String) (rel : String) :
    FSNode → Except RunError (List Record)
  | .dir _ children => scan_dir csvAbs dirAbs rel children
  | _ => .ok []
end

/-- `Main.__init__` scanning phase on the root directory (`sys.exit` when the
target is not a directory). -/
def scanRoot (csvAbs rootAbs : List String) (t : FSNode) :
    Except RunError (List Record) :=
  match t with
  | .dir _ entries => scan_dir csvAbs rootAbs "" entries
  | _ => .error (.exitErr "Error: not a directory")

/-- The row key used by both sort sites: `x['filename']`. -/
def fnameOf (r : Record) : String := dgetD r "filename"

/-- `db.sort(key = lambda x: x['filename'])`: stable ascending sort on the
filename field (Python's stable sort, modelled by stable `mergeSort`). -/
def sortByFilename (db : List Record) : List Record :=
  db.mergeSort (fun a b => fnameOf a ≤ fnameOf b)

/-- `csv.DictWriter.writerow`: the record's values in `csv_fieldnames`
order. -/
def toRow (r : Record) : Row := csv_fieldnames.map (fun f => dgetD r f)

/-- The write loop of `Main.hash_action`: header row then one row per
record, in the given order. -/
def write_csv (db : List Record) : List Row := csv_fieldnames :: db.map toRow

/-- `csv.DictReader` turning one data row into a dict keyed by the header
fields; a short row is padded with `restval = ''`.  (Fields beyond the
header length would go to a `None` rest-key, which no property here
touches.) -/
def readRow (fieldnames : List String) (row : Row) : Record :=
  fieldnames.zip (row ++ List.replicate (fieldnames.length - row.length) "")

/-- The snapshot-loading prologue of `Main.compare_csv`: an empty file makes
`reader.fieldnames` `None` and the membership test raise (`.exn`); a header
without `filename` is `sys.exit`; otherwise every data row becomes a dict. -/
def read_csv (rows : List Row) : Except RunError (List Record) :=
  match rows with
  | [] => .error .exn
  | header :: dataRows =>
    if "filename" ∈ header then .ok (dataRows.map (readRow header))
    else .error (.exitErr "Error: hash file is missing a filename field")

/-- One field difference reported under a `Changed` mismatch, carrying the
already-rendered old/new values exactly as the message interpolates them. -/
structure FieldDelta where
  field : String
  oldVal : String
  newVal : String
deriving DecidableEq, Repr

/-- Digits-only zero-padding `'{:09}'.format` of the sub-second part. -/
def pad9 (n : Int) : String :=
  let s := toString n.toNat
  String.mk (List.replicate (9 - s.length) '0') ++ s

/-- Abstraction of `datetime.datetime.fromtimestamp(secs).isoformat(' ')`
(standard library): an injective rendering of the epoch seconds.  Only the
fact that it is display text matters; no property depends on its shape. -/
def isoformat (secs : Int) : String := "datetime(" ++ toString secs ++ ")"

/-- The `tstamp` helper of `compare_csv`: parse the raw stored value as an
integer nanosecond count and render human-readable text plus the raw value;
a parse failure renders the invalid-timestamp text.  (Python `int()` accepts
some decorated spellings `String.toInt?` rejects; all values the program
itself writes are plain integers, where the two agree.) -/
def tstamp (val : String) : String :=
  match val.toInt? with
  | some n =>
    isoformat (Int.fdiv n 1000000000) ++ "." ++ pad9 (Int.emod n 1000000000) ++
      " (" ++ val ++ ")"
  | none => "invalid timestamp (" ++ val ++ ")"

/-- The old/new value rendering of the per-field message: empty stored value
shows as `none`; an `mtime` value is rendered through `tstamp`; anything
else is shown raw. -/
def render_val (field val : String) : String :=
  if val = "" then "none"
  else if field = "mtime" then tstamp val
  else val

/-- The `for field in scan_file` loop of `compare_csv`: one `FieldDelta` per
key of the scanned record whose raw stored values differ (`scan_val !=
csv_val` on the raw strings; rendering happens only on the reported
values). -/
def field_deltas (s c : Record) : List FieldDelta :=
  (keysOf s).filterMap (fun field =>
    let scan_val := dgetD s field
    let csv_val := dgetD c field
    if scan_val = csv_val then none
    else some ⟨field, render_val field csv_val, render_val field scan_val⟩)

/-- One reported discrepancy (the `msgfunc` lines, structured). -/
inductive Mismatch where
  | missingFromDisk (path : String) : Mismatch
  | missingFromHash (path : String) : Mismatch
  | changed (path : String) (deltas : List FieldDelta) : Mismatch
deriving DecidableEq, Repr

/-- The duplicate-entry `sys.exit` message. -/
def dup_msg (p : String) : String :=
  "Error: hash file has duplicate entries for file: " ++ p

/-- The duplicate test `csv_file['filename'] == prev_csv_file['filename']`
(with `prev_csv_file` absent on the first csv row). -/
def prevDup (prev : Option Record) (c : Record) : Bool :=
  match prev with
  | some p => fnameOf c == fnameOf p
  | none => false

/-- The two-pointer merge loop of `Main.compare_csv`.  `prev` is the csv row
just before the current one (`csv_db[csv_idx-1]`).  A duplicate entry is a
fatal `sys.exit`; mismatches printed before such an exit are discarded with
the run. -/
def compare_loop (prev : Option Record) :
    List Record → List Record → Except RunError (List Mismatch)
  | s :: srest, c :: crest =>
    if dictEq s c then compare_loop (some c) srest crest
    else if prevDup prev c then .error (.exitErr (dup_msg (fnameOf c)))
    else if fnameOf c < fnameOf s then
      (compare_loop (some c) (s :: srest) crest).map
        (fun ms => .missingFromDisk (fnameOf c) :: ms)
    else if fnameOf s < fnameOf c then
      (compare_loop prev srest (c :: crest)).map
        (fun ms => .missingFromHash (fnameOf s) :: ms)
    else
      (compare_loop (some c) srest crest).map
        (fun ms => .changed (fnameOf s) (field_deltas s c) :: ms)
  | [], c :: crest =>
    if prevDup prev c then .error (.exitErr (dup_msg (fnameOf c)))
    else
      (compare_loop (some c) [] crest).map
        (fun ms => .missingFromDisk (fnameOf c) :: ms)
  | s :: srest, [] =>
    (compare_loop prev srest []).map
      (fun ms => .missingFromHash (fnameOf s) :: ms)
  | [], [] => .ok []
termination_by scans csvs => scans.length + csvs.length

/-- `Main.compare_csv` given the snapshot file's rows: load and sort the
stored rows, then merge-compare against the (already sorted) scan. -/
def compare_csv (scanDb : List Record) (rows : List Row) :
    Except RunError (List Mismatch) := do
  let csvDb ← read_csv rows
  compare_loop none scanDb (sortByFilename csvDb)

/-- How a `check` run concludes when no fatal error occurs: the success
message with the compared-file count, or `sys.exit(1)` after printing the
mismatches. -/
inductive CheckOutcome where
  | success (filesCompared : Nat) : CheckOutcome
  | mismatchExit (ms : List Mismatch) : CheckOutcome
deriving DecidableEq, Repr

/-- A full `check` run: scan the tree (excluding the snapshot file), sort,
compare against the stored rows, and exit per `Main.check_action`. -/
def check_run (csvAbs rootAbs : List String) (t : FSNode) (rows : List Row) :
    Except RunError CheckOutcome := do
  let db0 ← scanRoot csvAbs rootAbs t
  let db := sortByFilename db0
  let ms ← compare_csv db rows
  pure (if ms = [] then .success db.length else .mismatchExit ms)

/-- A fresh `hash` run (no pre-existing snapshot): scan, sort, and produce
the rows `Main.hash_action` writes. -/
def hash_run (csvAbs rootAbs : List String) (t : FSNode) :
    Except RunError (List Row) := do
  let db0 ← scanRoot csvAbs rootAbs t
  pure (write_csv (sortByFilename db0))

/-- The successive on-disk contents of the snapshot file while
`Main.hash_action` writes it: `open(self.csv_file, 'w')` truncates the file
in place, then the header and each record row are appended in turn.  State
`k` is the content seen if the run dies after `k` of those steps. -/
def hash_write_states (db : List Record) : List (List Row) :=
  (List.range ((write_csv db).length + 1)).map (fun k => (write_csv db).take k)

/-- The full-file read passes one `hash_file` call performs on an open
file. -/
def hash_file_reads (content : List Nat) : List (List Nat) := readChunks content

/-- Every read `scan_file` performs on one entry: one full `hash_file` pass
per digest algorithm for a regular file (md5 first, then sha256), nothing
for other kinds. -/
def scan_file_reads : FSNode → List (List Nat)
  | .file _ _ content => hash_file_reads content ++ hash_file_reads content
  | _ => []

mutual
/-- Well-formedness of a real OS directory listing: entry names are nonempty,
contain no path separator, and are unique within each directory, recursively. -/
def wfEntries : List (String × FSNode) → Bool
  | [] => true
  | (name, node) :: rest =>
    name.data ≠ [] && !(name.data.contains '/') &&
      rest.all (fun e => e.1 ≠ name) && wfNode node && wfEntries rest

/-- Well-formedness of a subtree (see `wfEntries`). -/
def wfNode : FSNode → Bool
  | .dir _ entries => wfEntries entries
  | _ => true
end

/-- Two filesystem states that differ only in the order the OS reports
directory entries: generated, like `List.Perm`, by swapping adjacent entries
of one listing, congruence under a common head entry, and transitivity. -/
inductive FSP : FSNode → FSNode → Prop where
  | file (m : FMeta) (rd : Bool) (c : List Nat) : FSP (.file m rd c) (.file m rd c)
  | lnk (m : FMeta) (t : String) : FSP (.lnk m t) (.lnk m t)
  | chr (m : FMeta) : FSP (.chr m) (.chr m)
  | blk (m : FMeta) : FSP (.blk m) (.blk m)
  | fifo (m : FMeta) : FSP (.fifo m) (.fifo m)
  | sock (m : FMeta) : FSP (.sock m) (.sock m)
  | dirNil (m : FMeta) : FSP (.dir m []) (.dir m [])
  | dirCons (m : FMeta) (n : String) {t1 t2 : FSNode}
      {l1 l2 : List (String × FSNode)} :
      FSP t1 t2 → FSP (.dir m l1) (.dir m l2) →
      FSP (.dir m ((n, t1) :: l1)) (.dir m ((n, t2) :: l2))
  | dirSwap (m : FMeta) (a b : String × FSNode) (l : List (String × FSNode)) :
      FSP (.dir m (a :: b :: l)) (.dir m (b :: a :: l))
  | trans {a b c : FSNode} : FSP a b → FSP b c → FSP a c

mutual
/-- Characterization device for read failures: some regular file below this
listing that is not path-excluded (nor inside the excluded entry) is
unreadable, so the scan's `open` raises. -/
def unreadableVisible (csvAbs dirAbs : List String) :
    List (String × FSNode) → Bool
  | [] => false
  | (name, node) :: rest =>
    (if dirAbs ++ [name] = csvAbs then false
     else unreadableVisibleNode csvAbs (dirAbs ++ [name]) node) ||
    unreadableVisible csvAbs dirAbs rest

/-- See `unreadableVisible`. -/
def unreadableVisibleNode (csvAbs dirAbs : List String) : FSNode → Bool
  | .file _ readable _ => !readable
  | .dir _ children => unreadableVisible csvAbs dirAbs children
  | _ => false
end

/-- Quantification device: the subtree sitting at a relative component path
below a listing, when every intermediate component names a directory entry. -/
def entryAt : List (String × FSNode) → List String → Option FSNode
  | _, [] => none
  | entries, [name] => (entries.find? (fun e => e.1 == name)).map (fun e => e.2)
  | entries, name :: name2 :: restPath =>
    match entries.find? (fun e => e.1 == name) with
    | some (_, .dir _ children) => entryAt children (name2 :: restPath)
    | _ => none
termination_by _ path => path.length
decreasing_by simp

/-- The relative path string the scanner builds for a component list:
`joinRel` folded from the root's empty relative prefix. -/
def renderRelPath (comps : List String) : String := comps.foldl joinRel ""

/-- Proof device: the character tail a component list contributes after a
non-empty relative prefix (a `/` then the name, per component). -/
def relTail (comps : List String) : List Char :=
  comps.foldr (fun n acc => '/' :: n.data ++ acc) []

/-! ## Theorems -/

@[simp] theorem except_ok_bind {ε α β : Type} (a : α) (f : α → Except ε β) :
    (Except.ok a >>= f : Except ε β) = f a := rfl

@[simp] theorem except_error_bind {ε α β : Type} (e : ε) (f : α → Except ε β) :
    (Except.error e >>= f : Except ε β) = .error e := rfl

@[simp] theorem except_pure_eq {ε α : Type} (a : α) :
    (pure a : Except ε α) = .ok a := rfl

theorem toDigitsCore_length_le (b : Nat) :
    ∀ (f n : Nat) (ds : List Char), ds.length ≤ (Nat.toDigitsCore b f n ds).length := by
  intro f
  induction f with
  | zero => intro n ds; simp [Nat.toDigitsCore]
  | succ f ih =>
    intro n ds
    simp only [Nat.toDigitsCore]
    by_cases h : n / b = 0
    · simp [h]
    · simp only [h, if_false]
      calc ds.length ≤ (Nat.digitChar (n % b) :: ds).length := by simp
        _ ≤ _ := ih (n / b) (Nat.digitChar (n % b) :: ds)

theorem natToString_ne_empty (n : Nat) : toString n ≠ "" := by
  intro h
  have hd : (toString n).data = [] := by rw [h]
  have : toString n = (Nat.toDigits 10 n).asString := rfl
  rw [this] at hd
  have hlen : (1 : Nat) ≤ (Nat.toDigits 10 n).length := by
    have := toDigitsCore_length_le 10 n (n / 10) [Nat.digitChar (n % 10)]
    simp only [Nat.toDigits, Nat.toDigitsCore]
    by_cases h10 : n / 10 = 0
    · simp [h10]
    · simp only [h10, if_false]
      simpa using this
  have : (Nat.toDigits 10 n).asString.data = Nat.toDigits 10 n := rfl
  rw [this] at hd
  rw [hd] at hlen
  simp at hlen

theorem hexdigest_ne_empty (alg : String) (bytes : List Nat) :
    hexdigest alg bytes ≠ "" := by
  intro h
  have hd := congrArg String.data h
  rw [hexdigest] at hd
  rw [String.data_append, String.data_append] at hd
  simp at hd

theorem foldl_append_eq_flatten (l : List (List Nat)) :
    ∀ acc : List Nat, l.foldl (fun a ch => a ++ ch) acc = acc ++ l.flatten := by
  induction l with
  | nil => intro acc; simp
  | cons x xs ih => intro acc; simp [ih, List.append_assoc]

theorem readChunksFuel_flatten :
    ∀ (fuel : Nat) (c : List Nat), c.length ≤ fuel →
      (readChunksFuel fuel c).flatten = c := by
  intro fuel
  induction fuel with
  | zero =>
    intro c hc
    have : c = [] := List.eq_nil_of_length_eq_zero (Nat.le_zero.mp hc)
    subst this; rfl
  | succ fuel ih =>
    intro c hc
    match c with
    | [] => rfl
    | b :: rest =>
      simp only [readChunksFuel, List.flatten_cons]
      rw [ih ((b :: rest).drop bufSize) ?_]
      · exact List.take_append_drop bufSize (b :: rest)
      · have h1 : ((b :: rest).drop bufSize).length = (b :: rest).length - bufSize := by
          simp
        have h2 : (1 : Nat) ≤ bufSize := by simp [bufSize]
        simp only [h1]
        simp only [List.length_cons] at hc ⊢
        omega

theorem readChunks_flatten (c : List Nat) : (readChunks c).flatten = c :=
  readChunksFuel_flatten c.length c (Nat.le_refl _)

theorem hash_file_ok (c : List Nat) (alg : String) :
    hash_file true c alg = .ok (hexdigest alg c) := by
  simp [hash_file, foldl_append_eq_flatten, readChunks_flatten]

/-- Claim C5 counterexample: it is not the case that, for every regular
file, the bytes read while scanning it are the file's content read exactly
once; the entry with content `[7]` is read twice (once per algorithm). -/
theorem claim_C5_counterexample :
    ¬ (∀ (m : FMeta) (rd : Bool) (c : List Nat),
        (scan_file_reads (.file m rd c)).flatten = c) := by
  intro h
  exact absurd (h ⟨0, 1⟩ true [7]) (by decide)

/-- Claim C5, amended: scanning a regular file performs one full sequential
read pass per digest algorithm (two passes: md5 then sha256) rather than a
single shared pass; each pass reads exactly the file's byte stream in
order, and each digest is the digest of that full stream. -/
theorem claim_C5 (m : FMeta) (rd : Bool) (c : List Nat) :
    scan_file_reads (.file m rd c) = readChunks c ++ readChunks c ∧
    (readChunks c).flatten = c ∧
    hash_file true c "md5" = .ok (hexdigest "md5" c) ∧
    hash_file true c "sha256" = .ok (hexdigest "sha256" c) :=
  ⟨rfl, readChunks_flatten c, hash_file_ok c "md5", hash_file_ok c "sha256"⟩

/-- Claim C6 counterexample: hash-mode writing is not atomic with respect to
the previously stored snapshot: with any non-empty previous content, the
on-disk state right after the truncating `open(.., 'w')` (the empty file) is
neither the old snapshot nor the completed new one. -/
theorem claim_C6_counterexample :
    ¬ (∀ (db : List Record) (old : List Row),
        ∀ st ∈ hash_write_states db, st = old ∨ st = write_csv db) := by
  intro h
  exact absurd (h [] [["old"]] [] (by decide)) (by decide)

/-- Claim C6, amended: the new snapshot's rows are fully computed before the
write begins (every on-disk state is a prefix of the completed new
contents, ending with the full new snapshot), but the write truncates the
snapshot file in place: the empty state occurs on disk, so an existing
snapshot is destroyed before the new one is durably written, and a mid-way
failure leaves a partial (proper-prefix) file; there is no
write-to-temporary-then-rename step. -/
theorem claim_C6 (db : List Record) :
    [] ∈ hash_write_states db ∧
    write_csv db ∈ hash_write_states db ∧
    ∀ st ∈ hash_write_states db, ∃ k, st = (write_csv db).take k := by
  refine ⟨?_, ?_, ?_⟩
  · exact List.mem_map.mpr ⟨0, List.mem_range.mpr (Nat.succ_pos _), by simp⟩
  · exact List.mem_map.mpr ⟨(write_csv db).length,
      List.mem_range.mpr (Nat.lt_succ_self _), by simp⟩
  · intro st hst
    obtain ⟨k, _, hk⟩ := List.mem_map.mp hst
    exact ⟨k, hk.symm⟩

/-- Claim C6 witness: the truncated-empty state at the concrete empty
database is a prefix state of the final write. -/
theorem claim_C6_witness : ∃ k, ([] : List Row) = (write_csv []).take k :=
  (claim_C6 []).2.2 [] (by decide)

/-- Claim C7 counterexample: it is not true that the size field is populated
only for regular files: the record scanned for a directory with
`st_size = 4096` carries the non-empty size value `"4096"`. -/
theorem claim_C7_counterexample :
    ¬ (∀ (rel : String) (node : FSNode) (r : Record),
        scan_file rel node = .ok r →
        ((dgetD r "size" ≠ "" ∨ dgetD r "md5" ≠ "" ∨ dgetD r "sha256" ≠ "") →
          nodeType node = "file") ∧
        (dgetD r "link" ≠ "" → nodeType node = "lnk")) := by
  intro h
  have h2 := (h "d" (.dir ⟨0, 4096⟩ []) _ rfl).1 (Or.inl (by decide))
  exact absurd h2 (by decide)

/-- Claim C7, amended: the digest fields are populated exactly for regular
files and the link field only for symlinks (where it is the link target),
but the size field is populated — as the decimal rendering of `st_size` —
for every entry kind, not only for regular files. -/
theorem claim_C7 (rel : String) (node : FSNode) (r : Record)
    (h : scan_file rel node = .ok r) :
    (nodeType node = "file" → dgetD r "md5" ≠ "" ∧ dgetD r "sha256" ≠ "") ∧
    (nodeType node ≠ "file" → dgetD r "md5" = "" ∧ dgetD r "sha256" = "") ∧
    (nodeType node ≠ "lnk" → dgetD r "link" = "") ∧
    (∀ m target, node = .lnk m target → dgetD r "link" = target) ∧
    dgetD r "size" = toString (nodeMeta node).size ∧
    dgetD r "size" ≠ "" := by
  match node with
  | .file m readable c =>
    match readable with
    | true =>
      simp [scan_file, nodeType, hash_file_ok] at h
      subst h
      refine ⟨fun _ => ⟨hexdigest_ne_empty _ _, hexdigest_ne_empty _ _⟩, ?_, ?_, ?_, ?_, ?_⟩
      · intro hne; exact absurd rfl hne
      · intro _; simp [dgetD, dget]
      · intro m2 t2 heq; exact absurd heq (by simp)
      · simp [dgetD, dget, nodeMeta]
      · simp [dgetD, dget]; exact natToString_ne_empty _
    | false =>
      simp [scan_file, hash_file] at h
  | .dir m entries =>
    simp [scan_file, nodeType] at h
    subst h
    exact ⟨by simp [nodeType], fun _ => by simp [dgetD, dget],
      fun _ => by simp [dgetD, dget], fun m2 t2 heq => by simp at heq,
      by simp [dgetD, dget, nodeMeta], by simp [dgetD, dget]; exact natToString_ne_empty _⟩
  | .lnk m target =>
    simp [scan_file, nodeType] at h
    subst h
    exact ⟨by simp [nodeType], fun _ => by simp [dgetD, dget],
      fun hne => absurd rfl hne, fun m2 t2 heq => by
        simp [FSNode.lnk.injEq] at heq
        simp [dgetD, dget, heq],
      by simp [dgetD, dget, nodeMeta], by simp [dgetD, dget]; exact natToString_ne_empty _⟩
  | .chr m =>
    simp [scan_file, nodeType] at h
    subst h
    exact ⟨by simp [nodeType], fun _ => by simp [dgetD, dget],
      fun _ => by simp [dgetD, dget], fun m2 t2 heq => by simp at heq,
      by simp [dgetD, dget, nodeMeta], by simp [dgetD, dget]; exact natToString_ne_empty _⟩
  | .blk m =>
    simp [scan_file, nodeType] at h
    subst h
    exact ⟨by simp [nodeType], fun _ => by simp [dgetD, dget],
      fun _ => by simp [dgetD, dget], fun m2 t2 heq => by simp at heq,
      by simp [dgetD, dget, nodeMeta], by simp [dgetD, dget]; exact natToString_ne_empty _⟩
  | .fifo m =>
    simp [scan_file, nodeType] at h
    subst h
    exact ⟨by simp [nodeType], fun _ => by simp [dgetD, dget],
      fun _ => by simp [dgetD, dget], fun m2 t2 heq => by simp at heq,
      by simp [dgetD, dget, nodeMeta], by simp [dgetD, dget]; exact natToString_ne_empty _⟩
  | .sock m =>
    simp [scan_file, nodeType] at h
    subst h
    exact ⟨by simp [nodeType], fun _ => by simp [dgetD, dget],
      fun _ => by simp [dgetD, dget], fun m2 t2 heq => by simp at heq,
      by simp [dgetD, dget, nodeMeta], by simp [dgetD, dget]; exact natToString_ne_empty _⟩

/-- Claim C7 witness: the amended statement evaluated at a concrete symlink
entry. -/
theorem claim_C7_witness :
    dgetD [("filename", "s"), ("type", "lnk"), ("mtime", "3"), ("link", "tgt"),
      ("size", "5"), ("md5", ""), ("sha256", "")] "md5" = "" ∧
    dgetD [("filename", "s"), ("type", "lnk"), ("mtime", "3"), ("link", "tgt"),
      ("size", "5"), ("md5", ""), ("sha256", "")] "sha256" = "" :=
  (claim_C7 "s" (.lnk ⟨3, 5⟩ "tgt")
    [("filename", "s"), ("type", "lnk"), ("mtime", "3"), ("link", "tgt"),
      ("size", "5"), ("md5", ""), ("sha256", "")] rfl).2.1 (by decide)

theorem dget_of_mem :
    ∀ {r : Record} {k v : String}, (keysOf r).Nodup → (k, v) ∈ r → dget r k = some v := by
  intro r
  induction r with
  | nil => intro k v _ h; simp at h
  | cons kv rest ih =>
    intro k v hnd hmem
    obtain ⟨k1, v1⟩ := kv
    simp only [keysOf, List.map_cons, List.nodup_cons] at hnd
    rcases List.mem_cons.mp hmem with heq | hmem2
    · obtain ⟨rfl, rfl⟩ := Prod.mk.injEq k v k1 v1 |>.mp heq
      simp [dget]
    · have hne : k1 ≠ k := by
        intro he
        subst he
        exact hnd.1 (List.mem_map.mpr ⟨(k1, v), hmem2, rfl⟩)
      simp only [dget, if_neg hne]
      exact ih hnd.2 hmem2

theorem dictEq_self {r : Record} (hnd : (keysOf r).Nodup) : dictEq r r = true := by
  simp only [dictEq, Bool.and_eq_true, List.all_eq_true]
  constructor <;>
  · intro kv hkv
    have := dget_of_mem hnd (show (kv.1, kv.2) ∈ r by simpa using hkv)
    simp [this]

theorem compare_loop_self :
    ∀ (prev : Option Record) (db : List Record),
      (∀ r ∈ db, (keysOf r).Nodup) → compare_loop prev db db = .ok [] := by
  intro prev db
  induction db generalizing prev with
  | nil => intro _; simp [compare_loop]
  | cons r rest ih =>
    intro h
    have hself : dictEq r r = true := dictEq_self (h r (List.mem_cons_self r rest))
    rw [compare_loop, if_pos hself]
    exact ih (some r) (fun x hx => h x (List.mem_cons_of_mem r hx))

theorem zip_keys_dget :
    ∀ (r : Record), (keysOf r).Nodup →
      (keysOf r).zip ((keysOf r).map (fun f => dgetD r f)) = r := by
  intro r
  induction r with
  | nil => intro _; rfl
  | cons kv rest ih =>
    intro hnd
    obtain ⟨k, v⟩ := kv
    simp only [keysOf, List.map_cons, List.nodup_cons] at hnd
    simp only [keysOf, List.map_cons, List.zip_cons_cons]
    have hd : dgetD ((k, v) :: rest) k = v := by simp [dgetD, dget]
    rw [hd]
    have htail : (rest.map Prod.fst).map (fun f => dgetD ((k, v) :: rest) f) =
        (rest.map Prod.fst).map (fun f => dgetD rest f) := by
      apply List.map_congr_left
      intro a ha
      have hne : k ≠ a := fun he => hnd.1 (he ▸ ha)
      simp [dgetD, dget, if_neg hne]
    rw [htail]
    have := ih hnd.2
    simp only [keysOf] at this
    rw [this]

theorem readRow_toRow {r : Record} (hk : keysOf r = csv_fieldnames) :
    readRow csv_fieldnames (toRow r) = r := by
  have hlen : (toRow r).length = csv_fieldnames.length := by simp [toRow]
  simp only [readRow, hlen, Nat.sub_self, List.replicate_zero, List.append_nil]
  have hnd : (keysOf r).Nodup := by rw [hk]; decide
  have := zip_keys_dget r hnd
  rw [hk] at this
  simpa [toRow] using this

theorem scan_file_keys {rel : String} {node : FSNode} {r : Record}
    (h : scan_file rel node = .ok r) : keysOf r = csv_fieldnames := by
  match node with
  | .file m readable c =>
    match readable with
    | true =>
      simp [scan_file, nodeType, hash_file_ok] at h
      subst h; rfl
    | false => simp [scan_file, hash_file] at h
  | .dir m entries => simp [scan_file, nodeType] at h; subst h; rfl
  | .lnk m target => simp [scan_file, nodeType] at h; subst h; rfl
  | .chr m => simp [scan_file, nodeType] at h; subst h; rfl
  | .blk m => simp [scan_file, nodeType] at h; subst h; rfl
  | .fifo m => simp [scan_file, nodeType] at h; subst h; rfl
  | .sock m => simp [scan_file, nodeType] at h; subst h; rfl

theorem scan_keys_all (csvAbs : List String) :
    ∀ (dirAbs : List String) (rel : String) (l : List (String × FSNode))
      (db : List Record), scan_dir csvAbs dirAbs rel l = .ok db →
      ∀ r ∈ db, keysOf r = csv_fieldnames := by
  have H := scan_dir.mutual_induct csvAbs
    (fun dirAbs rel l => ∀ db, scan_dir csvAbs dirAbs rel l = .ok db →
      ∀ r ∈ db, keysOf r = csv_fieldnames)
    (fun dirAbs rel node => ∀ db, scan_node_children csvAbs dirAbs rel node = .ok db →
      ∀ r ∈ db, keysOf r = csv_fieldnames)
    ?caseDir ?caseNotDir ?caseNil ?caseSkip ?caseCons
  · exact fun dirAbs rel l db h => H.1 dirAbs rel l db h
  case caseDir =>
    intro dirAbs rel meta children ih db h
    rw [scan_node_children] at h
    exact ih db h
  case caseNotDir =>
    intro t dirAbs rel hnotdir db h
    match t, hnotdir with
    | .file m rd c, _ =>
      simp only [scan_node_children, Except.ok.injEq] at h
      subst h; simp
    | .lnk m tg, _ =>
      simp only [scan_node_children, Except.ok.injEq] at h
      subst h; simp
    | .chr m, _ =>
      simp only [scan_node_children, Except.ok.injEq] at h
      subst h; simp
    | .blk m, _ =>
      simp only [scan_node_children, Except.ok.injEq] at h
      subst h; simp
    | .fifo m, _ =>
      simp only [scan_node_children, Except.ok.injEq] at h
      subst h; simp
    | .sock m, _ =>
      simp only [scan_node_children, Except.ok.injEq] at h
      subst h; simp
    | .dir m ch, hnd => exact absurd rfl (hnd m ch)
  case caseNil =>
    intro dirAbs rel db h
    simp only [scan_dir, Except.ok.injEq] at h
    subst h; simp
  case caseSkip =>
    intro dirAbs rel name node rest hexcl ih db h
    rw [scan_dir, if_pos hexcl] at h
    exact ih db h
  case caseCons =>
    intro dirAbs rel name node rest hexcl ihnode ihrest db h
    rw [scan_dir, if_neg hexcl] at h
    cases hfi : scan_file (joinRel rel name) node with
    | error e => rw [hfi] at h; simp at h
    | ok fi =>
      rw [hfi] at h
      cases hsub : scan_node_children csvAbs (dirAbs ++ [name]) (joinRel rel name) node with
      | error e => rw [hsub] at h; simp at h
      | ok sub =>
        rw [hsub] at h
        cases hrest : scan_dir csvAbs dirAbs rel rest with
        | error e => rw [hrest] at h; simp at h
        | ok restDb =>
          rw [hrest] at h
          simp only [except_ok_bind, except_pure_eq, Except.ok.injEq] at h
          subst h
          intro r hr
          rcases List.mem_cons.mp hr with rfl | hr2
          · exact scan_file_keys hfi
          · rcases List.mem_append.mp hr2 with hs | hrst
            · exact ihnode sub hsub r hs
            · exact ihrest restDb hrest r hrst

theorem scanRoot_keys {csvAbs rootAbs : List String} {t : FSNode} {db : List Record}
    (h : scanRoot csvAbs rootAbs t = .ok db) :
    ∀ r ∈ db, keysOf r = csv_fieldnames := by
  match t with
  | .dir m entries =>
    rw [scanRoot] at h
    exact scan_keys_all csvAbs rootAbs "" entries db h
  | .file m rd c => simp [scanRoot] at h
  | .lnk m tg => simp [scanRoot] at h
  | .chr m => simp [scanRoot] at h
  | .blk m => simp [scanRoot] at h
  | .fifo m => simp [scanRoot] at h
  | .sock m => simp [scanRoot] at h

theorem sortByFilename_sorted (db : List Record) :
    (sortByFilename db).Pairwise (fun a b => fnameOf a ≤ fnameOf b) := by
  unfold sortByFilename
  refine List.Pairwise.imp ?_ (List.sorted_mergeSort ?_ ?_ db)
  · intro a b hab
    simpa using hab
  · intro a b c hab hbc
    simp only [decide_eq_true_eq] at hab hbc ⊢
    exact le_trans hab hbc
  · intro a b
    simp only [Bool.or_eq_true, decide_eq_true_eq]
    exact le_total _ _

theorem sortByFilename_of_sorted {db : List Record}
    (h : db.Pairwise (fun a b => fnameOf a ≤ fnameOf b)) : sortByFilename db = db := by
  unfold sortByFilename
  exact List.mergeSort_of_sorted (h.imp (fun hab => by simpa using hab))

theorem sortByFilename_idem (db : List Record) :
    sortByFilename (sortByFilename db) = sortByFilename db :=
  sortByFilename_of_sorted (sortByFilename_sorted db)

theorem mem_sortByFilename {r : Record} {db : List Record} :
    r ∈ sortByFilename db ↔ r ∈ db := by
  unfold sortByFilename
  exact List.mem_mergeSort

theorem read_csv_write_csv {db : List Record}
    (hk : ∀ r ∈ db, keysOf r = csv_fieldnames) :
    read_csv (write_csv db) = .ok db := by
  rw [write_csv, read_csv, if_pos (by decide : "filename" ∈ csv_fieldnames)]
  congr 1
  rw [List.map_map]
  have : ∀ r ∈ db, (readRow csv_fieldnames ∘ toRow) r = r := by
    intro r hr
    exact readRow_toRow (hk r hr)
  rw [List.map_congr_left this]
  exact List.map_id' db

/-- Claim C1: running `check` right after `hash` on the unmodified tree
(same snapshot path and root) loads the freshly written snapshot, compares
it against an identical scan, reports zero mismatches, and ends with the
success outcome. -/
theorem claim_C1 (csvAbs rootAbs : List String) (t : FSNode) (rows : List Row)
    (h : hash_run csvAbs rootAbs t = .ok rows) :
    ∃ db, scanRoot csvAbs rootAbs t = .ok db ∧
      compare_csv (sortByFilename db) rows = .ok [] ∧
      check_run csvAbs rootAbs t rows = .ok (.success (sortByFilename db).length) := by
  cases hscan : scanRoot csvAbs rootAbs t with
  | error e => rw [hash_run, hscan] at h; simp at h
  | ok db0 =>
    rw [hash_run, hscan] at h
    simp only [except_ok_bind, except_pure_eq, Except.ok.injEq] at h
    subst h
    have hkeys0 : ∀ r ∈ db0, keysOf r = csv_fieldnames := scanRoot_keys hscan
    have hkeys : ∀ r ∈ sortByFilename db0, keysOf r = csv_fieldnames :=
      fun r hr => hkeys0 r (mem_sortByFilename.mp hr)
    have hread : read_csv (write_csv (sortByFilename db0)) = .ok (sortByFilename db0) :=
      read_csv_write_csv hkeys
    have hcmp : compare_csv (sortByFilename db0) (write_csv (sortByFilename db0)) = .ok [] := by
      rw [compare_csv, hread]
      simp only [except_ok_bind]
      rw [sortByFilename_idem]
      exact compare_loop_self none _
        (fun r hr => by rw [hkeys r hr]; decide)
    refine ⟨db0, rfl, hcmp, ?_⟩
    rw [check_run, hscan]
    simp only [except_ok_bind]
    rw [hcmp]
    simp

/-- Claim C1 witness: hash then check on a concrete one-file tree. -/
theorem claim_C1_witness :
    ∃ db, scanRoot ["snap"] ["root"] (.dir ⟨5, 4096⟩ [("a", .file ⟨1, 1⟩ true [7])]) = .ok db ∧
      compare_csv (sortByFilename db)
        [["filename", "type", "mtime", "link", "size", "md5", "sha256"],
         ["a", "file", "1", "", "1", "md5:[7]", "sha256:[7]"]] = .ok [] ∧
      check_run ["snap"] ["root"] (.dir ⟨5, 4096⟩ [("a", .file ⟨1, 1⟩ true [7])])
        [["filename", "type", "mtime", "link", "size", "md5", "sha256"],
         ["a", "file", "1", "", "1", "md5:[7]", "sha256:[7]"]] =
        .ok (.success (sortByFilename db).length) :=
  claim_C1 ["snap"] ["root"] (.dir ⟨5, 4096⟩ [("a", .file ⟨1, 1⟩ true [7])])
    [["filename", "type", "mtime", "link", "size", "md5", "sha256"],
     ["a", "file", "1", "", "1", "md5:[7]", "sha256:[7]"]]
    (by simp [hash_run, scanRoot, scan_dir, scan_node_children, scan_file, nodeType,
      nodeMeta, hash_file_ok, joinRel, sortByFilename, write_csv, toRow,
      csv_fieldnames, dgetD, dget, hexdigest]
        <;> decide)

@[simp] theorem except_map_ok {ε α β : Type} (a : α) (f : α → β) :
    (Except.ok a : Except ε α).map f = .ok (f a) := rfl

@[simp] theorem except_map_error {ε α β : Type} (e : ε) (f : α → β) :
    (Except.error e : Except ε α).map f = .error e := rfl

theorem mem_of_dget {r : Record} {k v : String} (h : dget r k = some v) : (k, v) ∈ r := by
  induction r with
  | nil => simp [dget] at h
  | cons kv rest ih =>
    obtain ⟨k1, v1⟩ := kv
    by_cases he : k1 = k
    · subst he
      simp [dget] at h
      simp [h]
    · rw [dget, if_neg he] at h
      exact List.mem_cons_of_mem _ (ih h)

theorem dget_none_of_not_mem {r : Record} {k : String} (h : k ∉ keysOf r) :
    dget r k = none := by
  induction r with
  | nil => rfl
  | cons kv rest ih =>
    obtain ⟨k1, v1⟩ := kv
    simp only [keysOf, List.map_cons, List.mem_cons, not_or] at h
    rw [dget, if_neg (fun he => h.1 he.symm)]
    exact ih h.2

theorem dictEq_dget {a b : Record} (h : dictEq a b = true) :
    ∀ k, dget a k = dget b k := by
  intro k
  simp only [dictEq, Bool.and_eq_true, List.all_eq_true] at h
  cases ha : dget a k with
  | some v =>
    have := h.1 (k, v) (mem_of_dget ha)
    simp only [beq_iff_eq] at this
    exact this.symm
  | none =>
    cases hb : dget b k with
    | none => rfl
    | some w =>
      have := h.2 (k, w) (mem_of_dget hb)
      simp only [beq_iff_eq] at this
      rw [ha] at this
      exact this

theorem dictEq_fname {a b : Record} (h : dictEq a b = true) : fnameOf a = fnameOf b := by
  rw [fnameOf, fnameOf, dgetD, dgetD, dictEq_dget h]

theorem dictEq_dgetD {a b : Record} (h : dictEq a b = true) (k : String) :
    dgetD a k = dgetD b k := by
  rw [dgetD, dgetD, dictEq_dget h]

theorem compare_loop_eq_match (prev : Option Record) (s : Record)
    (srest : List Record) (c : Record) (crest : List Record) (h : dictEq s c = true) :
    compare_loop prev (s :: srest) (c :: crest) = compare_loop (some c) srest crest := by
  rw [compare_loop, if_pos h]

theorem compare_loop_eq_dup (prev : Option Record) (s : Record)
    (srest : List Record) (c : Record) (crest : List Record)
    (h1 : ¬ dictEq s c = true) (h2 : prevDup prev c = true) :
    compare_loop prev (s :: srest) (c :: crest) =
      .error (.exitErr (dup_msg (fnameOf c))) := by
  rw [compare_loop, if_neg h1, if_pos h2]

theorem compare_loop_eq_mdisk (prev : Option Record) (s : Record)
    (srest : List Record) (c : Record) (crest : List Record)
    (h1 : ¬ dictEq s c = true) (h2 : ¬ prevDup prev c = true)
    (h3 : fnameOf c < fnameOf s) :
    compare_loop prev (s :: srest) (c :: crest) =
      (compare_loop (some c) (s :: srest) crest).map
        (fun ms => .missingFromDisk (fnameOf c) :: ms) := by
  rw [compare_loop, if_neg h1, if_neg h2, if_pos h3]

theorem compare_loop_eq_mhash (prev : Option Record) (s : Record)
    (srest : List Record) (c : Record) (crest : List Record)
    (h1 : ¬ dictEq s c = true) (h2 : ¬ prevDup prev c = true)
    (h3 : ¬ fnameOf c < fnameOf s) (h4 : fnameOf s < fnameOf c) :
    compare_loop prev (s :: srest) (c :: crest) =
      (compare_loop prev srest (c :: crest)).map
        (fun ms => .missingFromHash (fnameOf s) :: ms) := by
  rw [compare_loop, if_neg h1, if_neg h2, if_neg h3, if_pos h4]

theorem compare_loop_eq_changed (prev : Option Record) (s : Record)
    (srest : List Record) (c : Record) (crest : List Record)
    (h1 : ¬ dictEq s c = true) (h2 : ¬ prevDup prev c = true)
    (h3 : ¬ fnameOf c < fnameOf s) (h4 : ¬ fnameOf s < fnameOf c) :
    compare_loop prev (s :: srest) (c :: crest) =
      (compare_loop (some c) srest crest).map
        (fun ms => .changed (fnameOf s) (field_deltas s c) :: ms) := by
  rw [compare_loop, if_neg h1, if_neg h2, if_neg h3, if_neg h4]

theorem compare_loop_eq_nil_dup (prev : Option Record) (c : Record)
    (crest : List Record) (h : prevDup prev c = true) :
    compare_loop prev [] (c :: crest) = .error (.exitErr (dup_msg (fnameOf c))) := by
  rw [compare_loop, if_pos h]

theorem compare_loop_eq_nil_mdisk (prev : Option Record) (c : Record)
    (crest : List Record) (h : ¬ prevDup prev c = true) :
    compare_loop prev [] (c :: crest) =
      (compare_loop (some c) [] crest).map
        (fun ms => .missingFromDisk (fnameOf c) :: ms) := by
  rw [compare_loop, if_neg h]

theorem compare_loop_eq_mhash_nil (prev : Option Record) (s : Record)
    (srest : List Record) :
    compare_loop prev (s :: srest) [] =
      (compare_loop prev srest []).map
        (fun ms => .missingFromHash (fnameOf s) :: ms) := by
  rw [compare_loop]

theorem compare_loop_eq_nil_nil (prev : Option Record) :
    compare_loop prev [] [] = .ok [] := by
  rw [compare_loop]

theorem pairwise_lt_of_le_nodup {l : List Record}
    (hle : l.Pairwise (fun a b => fnameOf a ≤ fnameOf b))
    (hnd : (l.map fnameOf).Nodup) :
    l.Pairwise (fun a b => fnameOf a < fnameOf b) := by
  have hne : l.Pairwise (fun a b => fnameOf a ≠ fnameOf b) :=
    (List.pairwise_map.mp hnd)
  exact (hle.and hne).imp (fun h => lt_of_le_of_ne h.1 h.2)

theorem sorted_dup_adjacent {l : List Record}
    (hle : l.Pairwise (fun a b => fnameOf a ≤ fnameOf b))
    (hnd : ¬ (l.map fnameOf).Nodup) :
    ∃ l1 p q l2, l = l1 ++ p :: q :: l2 ∧ fnameOf p = fnameOf q := by
  induction l with
  | nil => simp at hnd
  | cons a l ih =>
    rw [List.map_cons, List.nodup_cons] at hnd
    push_neg at hnd
    by_cases hmem : fnameOf a ∈ l.map fnameOf
    · obtain ⟨b, hb, hfb⟩ := List.mem_map.mp hmem
      match l, hb with
      | b0 :: l2, hb =>
        refine ⟨[], a, b0, l2, by simp, ?_⟩
        have hab0 : fnameOf a ≤ fnameOf b0 :=
          (List.pairwise_cons.mp hle).1 b0 (List.mem_cons_self b0 l2)
        rcases List.mem_cons.mp hb with rfl | hb2
        · exact hfb.symm
        · have hb0b : fnameOf b0 ≤ fnameOf b :=
            (List.pairwise_cons.mp (List.pairwise_cons.mp hle).2).1 b hb2
          exact le_antisymm hab0 (hfb ▸ hb0b)
    · have hndl : ¬ (l.map fnameOf).Nodup := fun hl => hnd hmem hl
      obtain ⟨l1, p, q, l2, heq, hpq⟩ := ih (List.pairwise_cons.mp hle).2 hndl
      exact ⟨a :: l1, p, q, l2, by rw [heq]; rfl, hpq⟩

theorem compare_loop_ok (prev : Option Record) (scans csvs : List Record) :
    csvs.Pairwise (fun a b => fnameOf a < fnameOf b) →
    (∀ p, prev = some p → ∀ c1 ∈ csvs, fnameOf p < fnameOf c1) →
    ∃ ms, compare_loop prev scans csvs = .ok ms := by
  induction prev, scans, csvs using compare_loop.induct with
  | case1 prev s srest c crest hde ih =>
    intro hc hprev
    rw [compare_loop_eq_match prev s srest c crest hde]
    exact ih (List.pairwise_cons.mp hc).2
      (fun p hp c1 hc1 => by
        cases hp
        exact (List.pairwise_cons.mp hc).1 c1 hc1)
  | case2 prev s srest c crest hde hdup =>
    intro hc hprev
    exfalso
    match prev, hdup with
    | some p, hdup =>
      simp only [prevDup, beq_iff_eq] at hdup
      exact absurd hdup (ne_of_gt (hprev p rfl c (List.mem_cons_self c crest)))
  | case3 prev s srest c crest hde hdup hlt ih =>
    intro hc hprev
    rw [compare_loop_eq_mdisk prev s srest c crest hde hdup hlt]
    obtain ⟨ms, hms⟩ := ih (List.pairwise_cons.mp hc).2
      (fun p hp c1 hc1 => by
        cases hp
        exact (List.pairwise_cons.mp hc).1 c1 hc1)
    rw [hms]
    exact ⟨_, rfl⟩
  | case4 prev s srest c crest hde hdup hnlt hlt ih =>
    intro hc hprev
    rw [compare_loop_eq_mhash prev s srest c crest hde hdup hnlt hlt]
    obtain ⟨ms, hms⟩ := ih hc hprev
    rw [hms]
    exact ⟨_, rfl⟩
  | case5 prev s srest c crest hde hdup hnlt hnlt2 ih =>
    intro hc hprev
    rw [compare_loop_eq_changed prev s srest c crest hde hdup hnlt hnlt2]
    obtain ⟨ms, hms⟩ := ih (List.pairwise_cons.mp hc).2
      (fun p hp c1 hc1 => by
        cases hp
        exact (List.pairwise_cons.mp hc).1 c1 hc1)
    rw [hms]
    exact ⟨_, rfl⟩
  | case6 prev c crest hdup =>
    intro hc hprev
    exfalso
    match prev, hdup with
    | some p, hdup =>
      simp only [prevDup, beq_iff_eq] at hdup
      exact absurd hdup (ne_of_gt (hprev p rfl c (List.mem_cons_self c crest)))
  | case7 prev c crest hdup ih =>
    intro hc hprev
    rw [compare_loop_eq_nil_mdisk prev c crest hdup]
    obtain ⟨ms, hms⟩ := ih (List.pairwise_cons.mp hc).2
      (fun p hp c1 hc1 => by
        cases hp
        exact (List.pairwise_cons.mp hc).1 c1 hc1)
    rw [hms]
    exact ⟨_, rfl⟩
  | case8 prev s srest ih =>
    intro hc hprev
    rw [compare_loop_eq_mhash_nil prev s srest]
    obtain ⟨ms, hms⟩ := ih hc hprev
    rw [hms]
    exact ⟨_, rfl⟩
  | case9 prev =>
    intro _ _
    exact ⟨[], compare_loop_eq_nil_nil prev⟩

theorem compare_loop_changed_none (q : String) (prev : Option Record)
    (scans csvs : List Record) :
    ∀ ms : List Mismatch,
      (∀ s1 ∈ scans, fnameOf s1 ≠ q) →
      compare_loop prev scans csvs = .ok ms →
      ∀ d, Mismatch.changed q d ∉ ms := by
  induction prev, scans, csvs using compare_loop.induct with
  | case1 prev s srest c crest hde ih =>
    intro ms hq h d
    rw [compare_loop_eq_match prev s srest c crest hde] at h
    exact ih ms (fun s1 hs1 => hq s1 (List.mem_cons_of_mem s hs1)) h d
  | case2 prev s srest c crest hde hdup =>
    intro ms hq h d
    rw [compare_loop_eq_dup prev s srest c crest hde hdup] at h
    simp at h
  | case3 prev s srest c crest hde hdup hlt ih =>
    intro ms hq h d
    rw [compare_loop_eq_mdisk prev s srest c crest hde hdup hlt] at h
    cases hr : compare_loop (some c) (s :: srest) crest with
    | error e => rw [hr] at h; simp at h
    | ok ms1 =>
      rw [hr] at h
      simp only [except_map_ok, Except.ok.injEq] at h
      subst h
      intro hmem
      rcases List.mem_cons.mp hmem with heq | hmem2
      · simp at heq
      · exact ih ms1 hq hr d hmem2
  | case4 prev s srest c crest hde hdup hnlt hlt ih =>
    intro ms hq h d
    rw [compare_loop_eq_mhash prev s srest c crest hde hdup hnlt hlt] at h
    cases hr : compare_loop prev srest (c :: crest) with
    | error e => rw [hr] at h; simp at h
    | ok ms1 =>
      rw [hr] at h
      simp only [except_map_ok, Except.ok.injEq] at h
      subst h
      intro hmem
      rcases List.mem_cons.mp hmem with heq | hmem2
      · simp at heq
      · exact ih ms1 (fun s1 hs1 => hq s1 (List.mem_cons_of_mem s hs1)) hr d hmem2
  | case5 prev s srest c crest hde hdup hnlt hnlt2 ih =>
    intro ms hq h d
    rw [compare_loop_eq_changed prev s srest c crest hde hdup hnlt hnlt2] at h
    cases hr : compare_loop (some c) srest crest with
    | error e => rw [hr] at h; simp at h
    | ok ms1 =>
      rw [hr] at h
      simp only [except_map_ok, Except.ok.injEq] at h
      subst h
      intro hmem
      rcases List.mem_cons.mp hmem with heq | hmem2
      · have := hq s (List.mem_cons_self s srest)
        simp only [Mismatch.changed.injEq] at heq
        exact this heq.1.symm
      · exact ih ms1 (fun s1 hs1 => hq s1 (List.mem_cons_of_mem s hs1)) hr d hmem2
  | case6 prev c crest hdup =>
    intro ms hq h d
    rw [compare_loop_eq_nil_dup prev c crest hdup] at h
    simp at h
  | case7 prev c crest hdup ih =>
    intro ms hq h d
    rw [compare_loop_eq_nil_mdisk prev c crest hdup] at h
    cases hr : compare_loop (some c) [] crest with
    | error e => rw [hr] at h; simp at h
    | ok ms1 =>
      rw [hr] at h
      simp only [except_map_ok, Except.ok.injEq] at h
      subst h
      intro hmem
      rcases List.mem_cons.mp hmem with heq | hmem2
      · simp at heq
      · exact ih ms1 hq hr d hmem2
  | case8 prev s srest ih =>
    intro ms hq h d
    rw [compare_loop_eq_mhash_nil prev s srest] at h
    cases hr : compare_loop prev srest [] with
    | error e => rw [hr] at h; simp at h
    | ok ms1 =>
      rw [hr] at h
      simp only [except_map_ok, Except.ok.injEq] at h
      subst h
      intro hmem
      rcases List.mem_cons.mp hmem with heq | hmem2
      · simp at heq
      · exact ih ms1 (fun s1 hs1 => hq s1 (List.mem_cons_of_mem s hs1)) hr d hmem2
  | case9 prev =>
    intro ms hq h d
    rw [compare_loop_eq_nil_nil prev] at h
    simp only [Except.ok.injEq] at h
    subst h
    simp

theorem compare_loop_changed_le_one (q : String) (prev : Option Record)
    (scans csvs : List Record) :
    ∀ ms : List Mismatch,
      scans.Pairwise (fun a b => fnameOf a < fnameOf b) →
      compare_loop prev scans csvs = .ok ms →
      ms.countP (fun m => match m with
        | .changed q1 _ => q1 == q
        | _ => false) ≤ 1 := by
  induction prev, scans, csvs using compare_loop.induct with
  | case1 prev s srest c crest hde ih =>
    intro ms hs h
    rw [compare_loop_eq_match prev s srest c crest hde] at h
    exact ih ms (List.pairwise_cons.mp hs).2 h
  | case2 prev s srest c crest hde hdup =>
    intro ms hs h
    rw [compare_loop_eq_dup prev s srest c crest hde hdup] at h
    simp at h
  | case3 prev s srest c crest hde hdup hlt ih =>
    intro ms hs h
    rw [compare_loop_eq_mdisk prev s srest c crest hde hdup hlt] at h
    cases hr : compare_loop (some c) (s :: srest) crest with
    | error e => rw [hr] at h; simp at h
    | ok ms1 =>
      rw [hr] at h
      simp only [except_map_ok, Except.ok.injEq] at h
      subst h
      simpa [List.countP_cons] using ih ms1 hs hr
  | case4 prev s srest c crest hde hdup hnlt hlt ih =>
    intro ms hs h
    rw [compare_loop_eq_mhash prev s srest c crest hde hdup hnlt hlt] at h
    cases hr : compare_loop prev srest (c :: crest) with
    | error e => rw [hr] at h; simp at h
    | ok ms1 =>
      rw [hr] at h
      simp only [except_map_ok, Except.ok.injEq] at h
      subst h
      simpa [List.countP_cons] using ih ms1 (List.pairwise_cons.mp hs).2 hr
  | case5 prev s srest c crest hde hdup hnlt hnlt2 ih =>
    intro ms hs h
    rw [compare_loop_eq_changed prev s srest c crest hde hdup hnlt hnlt2] at h
    cases hr : compare_loop (some c) srest crest with
    | error e => rw [hr] at h; simp at h
    | ok ms1 =>
      rw [hr] at h
      simp only [except_map_ok, Except.ok.injEq] at h
      subst h
      rw [List.countP_cons]
      have hscan_tail : ∀ s1 ∈ srest, fnameOf s1 ≠ q → True := fun _ _ _ => trivial
      by_cases hq : fnameOf s = q
      · have hzero : ms1.countP (fun m => match m with
          | .changed q1 _ => q1 == q
          | _ => false) = 0 := by
          rw [List.countP_eq_zero]
          intro m hm
          match m with
          | .missingFromDisk p => simp
          | .missingFromHash p => simp
          | .changed q1 d =>
            intro he
            have he2 : (q1 == q) = true := he
            rw [beq_iff_eq] at he2
            subst he2
            exact compare_loop_changed_none q1 (some c) srest crest ms1
              (fun s1 hs1 => by
                have hlt1 := (List.pairwise_cons.mp hs).1 s1 hs1
                exact ne_of_gt (hq ▸ hlt1)) hr d hm
        rw [hzero]
        split <;> simp
      · have hbq : (fnameOf s == q) = false := beq_eq_false_iff_ne.mpr hq
        have hgoal : (List.countP (fun m => match m with
            | Mismatch.changed q1 _ => q1 == q
            | _ => false) ms1 + if (fnameOf s == q) = true then 1 else 0) ≤ 1 := by
          rw [hbq]
          simpa using ih ms1 (List.pairwise_cons.mp hs).2 hr
        exact hgoal
  | case6 prev c crest hdup =>
    intro ms hs h
    rw [compare_loop_eq_nil_dup prev c crest hdup] at h
    simp at h
  | case7 prev c crest hdup ih =>
    intro ms hs h
    rw [compare_loop_eq_nil_mdisk prev c crest hdup] at h
    cases hr : compare_loop (some c) [] crest with
    | error e => rw [hr] at h; simp at h
    | ok ms1 =>
      rw [hr] at h
      simp only [except_map_ok, Except.ok.injEq] at h
      subst h
      simpa [List.countP_cons] using ih ms1 hs hr
  | case8 prev s srest ih =>
    intro ms hs h
    rw [compare_loop_eq_mhash_nil prev s srest] at h
    cases hr : compare_loop prev srest [] with
    | error e => rw [hr] at h; simp at h
    | ok ms1 =>
      rw [hr] at h
      simp only [except_map_ok, Except.ok.injEq] at h
      subst h
      simpa [List.countP_cons] using ih ms1 (List.pairwise_cons.mp hs).2 hr
  | case9 prev =>
    intro ms hs h
    rw [compare_loop_eq_nil_nil prev] at h
    simp only [Except.ok.injEq] at h
    subst h
    simp

theorem compare_loop_changed_mem (prev : Option Record) (scans csvs : List Record) :
    ∀ (s c : Record) (ms : List Mismatch),
      scans.Pairwise (fun a b => fnameOf a < fnameOf b) →
      csvs.Pairwise (fun a b => fnameOf a < fnameOf b) →
      s ∈ scans → c ∈ csvs → fnameOf s = fnameOf c → ¬ dictEq s c = true →
      compare_loop prev scans csvs = .ok ms →
      Mismatch.changed (fnameOf s) (field_deltas s c) ∈ ms := by
  induction prev, scans, csvs using compare_loop.induct with
  | case1 prev s0 srest c0 crest hde ih =>
    intro s c ms hs hc hmems hmemc heq hne h
    rw [compare_loop_eq_match prev s0 srest c0 crest hde] at h
    rcases List.mem_cons.mp hmems with rfl | hmems2
    · rcases List.mem_cons.mp hmemc with rfl | hmemc2
      · exact absurd hde hne
      · exfalso
        have h1 : fnameOf s = fnameOf c0 := dictEq_fname hde
        have h2 : fnameOf c0 < fnameOf c := (List.pairwise_cons.mp hc).1 c hmemc2
        rw [← h1, heq] at h2
        exact lt_irrefl _ h2
    · rcases List.mem_cons.mp hmemc with rfl | hmemc2
      · exfalso
        have h1 : fnameOf s0 = fnameOf c := dictEq_fname hde
        have h2 : fnameOf s0 < fnameOf s := (List.pairwise_cons.mp hs).1 s hmems2
        rw [h1, ← heq] at h2
        exact lt_irrefl _ h2
      · exact ih s c ms (List.pairwise_cons.mp hs).2 (List.pairwise_cons.mp hc).2
          hmems2 hmemc2 heq hne h
  | case2 prev s0 srest c0 crest hde hdup =>
    intro s c ms hs hc hmems hmemc heq hne h
    rw [compare_loop_eq_dup prev s0 srest c0 crest hde hdup] at h
    simp at h
  | case3 prev s0 srest c0 crest hde hdup hlt ih =>
    intro s c ms hs hc hmems hmemc heq hne h
    rw [compare_loop_eq_mdisk prev s0 srest c0 crest hde hdup hlt] at h
    cases hr : compare_loop (some c0) (s0 :: srest) crest with
    | error e => rw [hr] at h; simp at h
    | ok ms1 =>
      rw [hr] at h
      simp only [except_map_ok, Except.ok.injEq] at h
      subst h
      have hcc0 : c ≠ c0 := by
        intro he
        subst he
        have hs0s : fnameOf s0 ≤ fnameOf s := by
          rcases List.mem_cons.mp hmems with rfl | hmems2
          · exact le_refl _
          · exact le_of_lt ((List.pairwise_cons.mp hs).1 s hmems2)
        rw [heq] at hs0s
        exact absurd (lt_of_lt_of_le hlt hs0s) (lt_irrefl _)
      have hmemc2 : c ∈ crest := by
        rcases List.mem_cons.mp hmemc with rfl | h2
        · exact absurd rfl hcc0
        · exact h2
      exact List.mem_cons_of_mem _
        (ih s c ms1 hs (List.pairwise_cons.mp hc).2 hmems hmemc2 heq hne hr)
  | case4 prev s0 srest c0 crest hde hdup hnlt hlt ih =>
    intro s c ms hs hc hmems hmemc heq hne h
    rw [compare_loop_eq_mhash prev s0 srest c0 crest hde hdup hnlt hlt] at h
    cases hr : compare_loop prev srest (c0 :: crest) with
    | error e => rw [hr] at h; simp at h
    | ok ms1 =>
      rw [hr] at h
      simp only [except_map_ok, Except.ok.injEq] at h
      subst h
      have hss0 : s ≠ s0 := by
        intro he
        subst he
        have hc0c : fnameOf c0 ≤ fnameOf c := by
          rcases List.mem_cons.mp hmemc with rfl | hmemc2
          · exact le_refl _
          · exact le_of_lt ((List.pairwise_cons.mp hc).1 c hmemc2)
        rw [← heq] at hc0c
        exact absurd (lt_of_lt_of_le hlt hc0c) (lt_irrefl _)
      have hmems2 : s ∈ srest := by
        rcases List.mem_cons.mp hmems with rfl | h2
        · exact absurd rfl hss0
        · exact h2
      exact List.mem_cons_of_mem _
        (ih s c ms1 (List.pairwise_cons.mp hs).2 hc hmems2 hmemc heq hne hr)
  | case5 prev s0 srest c0 crest hde hdup hnlt hnlt2 ih =>
    intro s c ms hs hc hmems hmemc heq hne h
    rw [compare_loop_eq_changed prev s0 srest c0 crest hde hdup hnlt hnlt2] at h
    cases hr : compare_loop (some c0) srest crest with
    | error e => rw [hr] at h; simp at h
    | ok ms1 =>
      rw [hr] at h
      simp only [except_map_ok, Except.ok.injEq] at h
      subst h
      have heq0 : fnameOf s0 = fnameOf c0 := le_antisymm (not_lt.mp hnlt) (not_lt.mp hnlt2)
      rcases List.mem_cons.mp hmems with rfl | hmems2
      · rcases List.mem_cons.mp hmemc with rfl | hmemc2
        · exact List.mem_cons_self _ _
        · exfalso
          have h2 : fnameOf c0 < fnameOf c := (List.pairwise_cons.mp hc).1 c hmemc2
          rw [← heq0, ← heq] at h2
          exact lt_irrefl _ h2
      · rcases List.mem_cons.mp hmemc with rfl | hmemc2
        · exfalso
          have h2 : fnameOf s0 < fnameOf s := (List.pairwise_cons.mp hs).1 s hmems2
          rw [heq0, ← heq] at h2
          exact lt_irrefl _ h2
        · exact List.mem_cons_of_mem _
            (ih s c ms1 (List.pairwise_cons.mp hs).2 (List.pairwise_cons.mp hc).2
              hmems2 hmemc2 heq hne hr)
  | case6 prev c0 crest hdup =>
    intro s c ms hs hc hmems hmemc heq hne h
    simp at hmems
  | case7 prev c0 crest hdup ih =>
    intro s c ms hs hc hmems hmemc heq hne h
    simp at hmems
  | case8 prev s0 srest ih =>
    intro s c ms hs hc hmems hmemc heq hne h
    simp at hmemc
  | case9 prev =>
    intro s c ms hs hc hmems hmemc heq hne h
    simp at hmems

theorem count_dup_of_link (pre : List Record) (p c : Record) (crest : List Record)
    (hpc : fnameOf c = fnameOf p) :
    2 ≤ ((pre ++ p :: c :: crest).map fnameOf).count (fnameOf c) := by
  have hmap : ((pre ++ p :: c :: crest).map fnameOf) =
      pre.map fnameOf ++ fnameOf p :: fnameOf c :: crest.map fnameOf := by simp
  rw [hmap, List.count_append, List.count_cons, List.count_cons]
  have h1 : (fnameOf c == fnameOf c) = true := beq_iff_eq.mpr rfl
  have h2 : (fnameOf p == fnameOf c) = true := beq_iff_eq.mpr hpc.symm
  rw [h1, h2]
  simp
  omega

theorem compare_loop_dup_abort (prev : Option Record) (scans csvs : List Record) :
    ∀ (csvAll : List Record),
      scans.Pairwise (fun a b => fnameOf a ≤ fnameOf b) →
      (scans.map fnameOf).Nodup →
      ((prev = none ∧ csvAll = csvs) ∨
        (∃ pre p, csvAll = pre ++ p :: csvs ∧ prev = some p)) →
      (∀ p, prev = some p → ∀ s1 ∈ scans, fnameOf s1 ≠ fnameOf p) →
      ((∃ l1 p q l2, csvs = l1 ++ p :: q :: l2 ∧ fnameOf p = fnameOf q) ∨
        (∃ p c1 cr, prev = some p ∧ csvs = c1 :: cr ∧ fnameOf c1 = fnameOf p)) →
      ∃ fn, compare_loop prev scans csvs = .error (.exitErr (dup_msg fn)) ∧
        2 ≤ (csvAll.map fnameOf).count fn := by
  induction prev, scans, csvs using compare_loop.induct with
  | case1 prev s0 srest c0 crest hde ih =>
    intro csvAll hsort hnd hlink hprev hdup
    rw [compare_loop_eq_match prev s0 srest c0 crest hde]
    apply ih csvAll (List.pairwise_cons.mp hsort).2
      (by rw [List.map_cons, List.nodup_cons] at hnd; exact hnd.2)
    · rcases hlink with ⟨hp, hall⟩ | ⟨pre, p, hall, hp⟩
      · exact Or.inr ⟨[], c0, by simpa using hall, rfl⟩
      · refine Or.inr ⟨pre ++ [p], c0, ?_, rfl⟩
        rw [hall]
        simp
    · intro p hp s1 hs1
      cases hp
      have hs0c0 : fnameOf s0 = fnameOf c0 := dictEq_fname hde
      rw [List.map_cons, List.nodup_cons] at hnd
      intro he
      exact hnd.1 (List.mem_map.mpr ⟨s1, hs1, he.trans hs0c0.symm⟩)
    · rcases hdup with ⟨l1, p, q, l2, heql, hpq⟩ | ⟨p, c1, cr, hp, heqc, hc1p⟩
      · match l1, heql with
        | [], heql =>
          obtain ⟨h1, h2⟩ := List.cons_eq_cons.mp heql
          subst h1
          exact Or.inr ⟨c0, q, l2, rfl, h2, hpq.symm⟩
        | c1x :: l1x, heql =>
          obtain ⟨h1, h2⟩ := List.cons_eq_cons.mp heql
          exact Or.inl ⟨l1x, p, q, l2, h2, hpq⟩
      · exfalso
        have hc1c0 : c1 = c0 := (List.cons_eq_cons.mp heqc.symm).1
        have hs0c0 : fnameOf s0 = fnameOf c0 := dictEq_fname hde
        exact hprev p hp s0 (List.mem_cons_self s0 srest)
          (by rw [hs0c0, ← hc1c0]; exact hc1p)
  | case2 prev s0 srest c0 crest hde hdup2 =>
    intro csvAll hsort hnd hlink hprev hdup
    rw [compare_loop_eq_dup prev s0 srest c0 crest hde hdup2]
    match prev, hdup2 with
    | some p, hdup2 =>
      simp only [prevDup, beq_iff_eq] at hdup2
      rcases hlink with ⟨hp, _⟩ | ⟨pre, p1, hall, hp⟩
      · exact absurd hp (by simp)
      · have hp1 : p1 = p := by injection hp with h; exact h.symm
        subst hall
        exact ⟨fnameOf c0, rfl, count_dup_of_link pre p1 c0 crest (hp1.symm ▸ hdup2)⟩
  | case3 prev s0 srest c0 crest hde hdup2 hlt ih =>
    intro csvAll hsort hnd hlink hprev hdup
    rw [compare_loop_eq_mdisk prev s0 srest c0 crest hde hdup2 hlt]
    have hrec := ih csvAll hsort hnd ?hlink ?hprev ?hdup
    · obtain ⟨fn, hfn, hcount⟩ := hrec
      rw [hfn]
      exact ⟨fn, rfl, hcount⟩
    case hlink =>
      rcases hlink with ⟨hp, hall⟩ | ⟨pre, p, hall, hp⟩
      · exact Or.inr ⟨[], c0, by simpa using hall, rfl⟩
      · refine Or.inr ⟨pre ++ [p], c0, ?_, rfl⟩
        rw [hall]
        simp
    case hprev =>
      intro p hp s1 hs1
      cases hp
      rcases List.mem_cons.mp hs1 with rfl | hs2
      · exact ne_of_gt hlt
      · have hle : fnameOf s0 ≤ fnameOf s1 := (List.pairwise_cons.mp hsort).1 s1 hs2
        exact ne_of_gt (lt_of_lt_of_le hlt hle)
    case hdup =>
      rcases hdup with ⟨l1, p, q, l2, heql, hpq⟩ | ⟨p, c1, cr, hp, heqc, hc1p⟩
      · match l1, heql with
        | [], heql =>
          obtain ⟨h1, h2⟩ := List.cons_eq_cons.mp heql
          subst h1
          exact Or.inr ⟨c0, q, l2, rfl, h2, hpq.symm⟩
        | c1x :: l1x, heql =>
          obtain ⟨h1, h2⟩ := List.cons_eq_cons.mp heql
          exact Or.inl ⟨l1x, p, q, l2, h2, hpq⟩
      · exfalso
        have hc1c0 : c1 = c0 := (List.cons_eq_cons.mp heqc.symm).1
        apply hdup2
        cases hp
        simp only [prevDup, beq_iff_eq]
        rw [← hc1c0]
        exact hc1p
  | case4 prev s0 srest c0 crest hde hdup2 hnlt hlt ih =>
    intro csvAll hsort hnd hlink hprev hdup
    rw [compare_loop_eq_mhash prev s0 srest c0 crest hde hdup2 hnlt hlt]
    have hrec := ih csvAll (List.pairwise_cons.mp hsort).2
      (by rw [List.map_cons, List.nodup_cons] at hnd; exact hnd.2) hlink
      (fun p hp s1 hs1 => hprev p hp s1 (List.mem_cons_of_mem s0 hs1)) hdup
    obtain ⟨fn, hfn, hcount⟩ := hrec
    rw [hfn]
    exact ⟨fn, rfl, hcount⟩
  | case5 prev s0 srest c0 crest hde hdup2 hnlt hnlt2 ih =>
    intro csvAll hsort hnd hlink hprev hdup
    rw [compare_loop_eq_changed prev s0 srest c0 crest hde hdup2 hnlt hnlt2]
    have heq0 : fnameOf s0 = fnameOf c0 := le_antisymm (not_lt.mp hnlt) (not_lt.mp hnlt2)
    have hrec := ih csvAll (List.pairwise_cons.mp hsort).2
      (by rw [List.map_cons, List.nodup_cons] at hnd; exact hnd.2) ?hlink ?hprev ?hdup
    · obtain ⟨fn, hfn, hcount⟩ := hrec
      rw [hfn]
      exact ⟨fn, rfl, hcount⟩
    case hlink =>
      rcases hlink with ⟨hp, hall⟩ | ⟨pre, p, hall, hp⟩
      · exact Or.inr ⟨[], c0, by simpa using hall, rfl⟩
      · refine Or.inr ⟨pre ++ [p], c0, ?_, rfl⟩
        rw [hall]
        simp
    case hprev =>
      intro p hp s1 hs1
      cases hp
      rw [List.map_cons, List.nodup_cons] at hnd
      intro he
      exact hnd.1 (List.mem_map.mpr ⟨s1, hs1, he.trans heq0.symm⟩)
    case hdup =>
      rcases hdup with ⟨l1, p, q, l2, heql, hpq⟩ | ⟨p, c1, cr, hp, heqc, hc1p⟩
      · match l1, heql with
        | [], heql =>
          obtain ⟨h1, h2⟩ := List.cons_eq_cons.mp heql
          subst h1
          exact Or.inr ⟨c0, q, l2, rfl, h2, hpq.symm⟩
        | c1x :: l1x, heql =>
          obtain ⟨h1, h2⟩ := List.cons_eq_cons.mp heql
          exact Or.inl ⟨l1x, p, q, l2, h2, hpq⟩
      · exfalso
        have hc1c0 : c1 = c0 := (List.cons_eq_cons.mp heqc.symm).1
        apply hdup2
        cases hp
        simp only [prevDup, beq_iff_eq]
        rw [← hc1c0]
        exact hc1p
  | case6 prev c0 crest hdup2 =>
    intro csvAll hsort hnd hlink hprev hdup
    rw [compare_loop_eq_nil_dup prev c0 crest hdup2]
    match prev, hdup2 with
    | some p, hdup2 =>
      simp only [prevDup, beq_iff_eq] at hdup2
      rcases hlink with ⟨hp, _⟩ | ⟨pre, p1, hall, hp⟩
      · exact absurd hp (by simp)
      · have hp1 : p1 = p := by injection hp with h; exact h.symm
        subst hall
        exact ⟨fnameOf c0, rfl, count_dup_of_link pre p1 c0 crest (hp1.symm ▸ hdup2)⟩
  | case7 prev c0 crest hdup2 ih =>
    intro csvAll hsort hnd hlink hprev hdup
    rw [compare_loop_eq_nil_mdisk prev c0 crest hdup2]
    have hrec := ih csvAll List.Pairwise.nil (by simp) ?hlink ?hprev ?hdup
    · obtain ⟨fn, hfn, hcount⟩ := hrec
      rw [hfn]
      exact ⟨fn, rfl, hcount⟩
    case hlink =>
      rcases hlink with ⟨hp, hall⟩ | ⟨pre, p, hall, hp⟩
      · exact Or.inr ⟨[], c0, by simpa using hall, rfl⟩
      · refine Or.inr ⟨pre ++ [p], c0, ?_, rfl⟩
        rw [hall]
        simp
    case hprev => intro p hp s1 hs1; simp at hs1
    case hdup =>
      rcases hdup with ⟨l1, p, q, l2, heql, hpq⟩ | ⟨p, c1, cr, hp, heqc, hc1p⟩
      · match l1, heql with
        | [], heql =>
          obtain ⟨h1, h2⟩ := List.cons_eq_cons.mp heql
          subst h1
          exact Or.inr ⟨c0, q, l2, rfl, h2, hpq.symm⟩
        | c1x :: l1x, heql =>
          obtain ⟨h1, h2⟩ := List.cons_eq_cons.mp heql
          exact Or.inl ⟨l1x, p, q, l2, h2, hpq⟩
      · exfalso
        have hc1c0 : c1 = c0 := (List.cons_eq_cons.mp heqc.symm).1
        apply hdup2
        cases hp
        simp only [prevDup, beq_iff_eq]
        rw [← hc1c0]
        exact hc1p
  | case8 prev s0 srest ih =>
    intro csvAll hsort hnd hlink hprev hdup
    exfalso
    rcases hdup with ⟨l1, p, q, l2, heql, _⟩ | ⟨p, c1, cr, _, heqc, _⟩
    · exact absurd heql (by simp)
    · exact absurd heqc (by simp)
  | case9 prev =>
    intro csvAll hsort hnd hlink hprev hdup
    exfalso
    rcases hdup with ⟨l1, p, q, l2, heql, _⟩ | ⟨p, c1, cr, _, heqc, _⟩
    · exact absurd heql (by simp)
    · exact absurd heqc (by simp)

/-- Claim C2: for a path present in both the scan and the loaded snapshot
with at least one differing recognized field, the comparison succeeds and
emits exactly one `Changed` mismatch for that path, carrying one delta per
differing field; every recognized field is compared; the comparison is
string equality on the raw stored values (mtime included), the rendering
(`render_val`, which applies `tstamp` only to the message text) affecting
only the reported old/new values. -/
theorem claim_C2 (scanDb csvDb : List Record) (rows : List Row) (s c : Record)
    (hread : read_csv rows = .ok csvDb)
    (hs : scanDb.Pairwise (fun a b => fnameOf a < fnameOf b))
    (hcnd : (csvDb.map fnameOf).Nodup)
    (hmems : s ∈ scanDb) (hmemc : c ∈ csvDb)
    (heq : fnameOf s = fnameOf c)
    (hkeys : keysOf s = csv_fieldnames)
    (hdiff : ∃ f ∈ csv_fieldnames, dgetD s f ≠ dgetD c f) :
    ∃ ms, compare_csv scanDb rows = .ok ms ∧
      Mismatch.changed (fnameOf s) (field_deltas s c) ∈ ms ∧
      ms.countP (fun m => match m with
        | .changed q1 _ => q1 == fnameOf s
        | _ => false) = 1 ∧
      field_deltas s c = csv_fieldnames.filterMap (fun f =>
        if dgetD s f = dgetD c f then none
        else some ⟨f, render_val f (dgetD c f), render_val f (dgetD s f)⟩) ∧
      ∀ f, (∃ d ∈ field_deltas s c, d.field = f) ↔
        (f ∈ csv_fieldnames ∧ dgetD s f ≠ dgetD c f) := by
  have hne : ¬ dictEq s c = true := by
    intro hd
    obtain ⟨f, _, hdf⟩ := hdiff
    exact hdf (dictEq_dgetD hd f)
  have hc_le := sortByFilename_sorted csvDb
  have hperm : (sortByFilename csvDb).Perm csvDb := List.mergeSort_perm csvDb _
  have hcnd2 : ((sortByFilename csvDb).map fnameOf).Nodup :=
    ((hperm.map fnameOf).nodup_iff).mpr hcnd
  have hc_strict := pairwise_lt_of_le_nodup hc_le hcnd2
  have hmemc2 : c ∈ sortByFilename csvDb := mem_sortByFilename.mpr hmemc
  obtain ⟨ms, hms⟩ := compare_loop_ok none scanDb (sortByFilename csvDb) hc_strict
    (by intro p hp; simp at hp)
  have hmem := compare_loop_changed_mem none scanDb (sortByFilename csvDb) s c ms
    hs hc_strict hmems hmemc2 heq hne hms
  have hle1 := compare_loop_changed_le_one (fnameOf s) none scanDb
    (sortByFilename csvDb) ms hs hms
  have hge1 : 0 < ms.countP (fun m => match m with
      | .changed q1 _ => q1 == fnameOf s
      | _ => false) :=
    List.countP_pos.mpr ⟨_, hmem, by simp⟩
  refine ⟨ms, ?_, hmem, Nat.le_antisymm hle1 hge1, ?_, ?_⟩
  · rw [compare_csv, hread]
    simp only [except_ok_bind]
    exact hms
  · rw [field_deltas, hkeys]
  · intro f
    constructor
    · rintro ⟨d, hd, hdf⟩
      rw [field_deltas, hkeys] at hd
      obtain ⟨f1, hf1, hf1d⟩ := List.mem_filterMap.mp hd
      by_cases heqv : dgetD s f1 = dgetD c f1
      · rw [if_pos heqv] at hf1d
        exact absurd hf1d (by simp)
      · rw [if_neg heqv] at hf1d
        have hd1 : d = ⟨f1, render_val f1 (dgetD c f1), render_val f1 (dgetD s f1)⟩ :=
          (Option.some.injEq _ _).mp hf1d.symm
        have hf1f : f1 = f := by rw [hd1] at hdf; exact hdf
        subst hf1f
        exact ⟨hf1, heqv⟩
    · rintro ⟨hf_mem, hf_ne⟩
      refine ⟨⟨f, render_val f (dgetD c f), render_val f (dgetD s f)⟩, ?_, rfl⟩
      rw [field_deltas, hkeys]
      exact List.mem_filterMap.mpr ⟨f, hf_mem, by rw [if_neg hf_ne]⟩

/-- Claim C2 witness: a concrete matched path whose md5 differs. -/
theorem claim_C2_witness :
    ∃ ms, compare_csv
        [[("filename", "a"), ("type", "file"), ("mtime", "1"), ("link", ""),
          ("size", "1"), ("md5", "my"), ("sha256", "sx")]]
        [["filename", "type", "mtime", "link", "size", "md5", "sha256"],
         ["a", "file", "1", "", "1", "mx", "sx"]] = .ok ms ∧
      Mismatch.changed
        (fnameOf [("filename", "a"), ("type", "file"), ("mtime", "1"), ("link", ""),
          ("size", "1"), ("md5", "my"), ("sha256", "sx")])
        (field_deltas
          [("filename", "a"), ("type", "file"), ("mtime", "1"), ("link", ""),
            ("size", "1"), ("md5", "my"), ("sha256", "sx")]
          [("filename", "a"), ("type", "file"), ("mtime", "1"), ("link", ""),
            ("size", "1"), ("md5", "mx"), ("sha256", "sx")]) ∈ ms ∧
      ms.countP (fun m => match m with
        | .changed q1 _ => q1 == fnameOf [("filename", "a"), ("type", "file"),
            ("mtime", "1"), ("link", ""), ("size", "1"), ("md5", "my"), ("sha256", "sx")]
        | _ => false) = 1 ∧
      field_deltas
        [("filename", "a"), ("type", "file"), ("mtime", "1"), ("link", ""),
          ("size", "1"), ("md5", "my"), ("sha256", "sx")]
        [("filename", "a"), ("type", "file"), ("mtime", "1"), ("link", ""),
          ("size", "1"), ("md5", "mx"), ("sha256", "sx")] =
        csv_fieldnames.filterMap (fun f =>
          if dgetD [("filename", "a"), ("type", "file"), ("mtime", "1"), ("link", ""),
              ("size", "1"), ("md5", "my"), ("sha256", "sx")] f =
             dgetD [("filename", "a"), ("type", "file"), ("mtime", "1"), ("link", ""),
              ("size", "1"), ("md5", "mx"), ("sha256", "sx")] f then none
          else some ⟨f,
            render_val f (dgetD [("filename", "a"), ("type", "file"), ("mtime", "1"),
              ("link", ""), ("size", "1"), ("md5", "mx"), ("sha256", "sx")] f),
            render_val f (dgetD [("filename", "a"), ("type", "file"), ("mtime", "1"),
              ("link", ""), ("size", "1"), ("md5", "my"), ("sha256", "sx")] f)⟩) ∧
      ∀ f, (∃ d ∈ field_deltas
          [("filename", "a"), ("type", "file"), ("mtime", "1"), ("link", ""),
            ("size", "1"), ("md5", "my"), ("sha256", "sx")]
          [("filename", "a"), ("type", "file"), ("mtime", "1"), ("link", ""),
            ("size", "1"), ("md5", "mx"), ("sha256", "sx")], d.field = f) ↔
        (f ∈ csv_fieldnames ∧
          dgetD [("filename", "a"), ("type", "file"), ("mtime", "1"), ("link", ""),
            ("size", "1"), ("md5", "my"), ("sha256", "sx")] f ≠
          dgetD [("filename", "a"), ("type", "file"), ("mtime", "1"), ("link", ""),
            ("size", "1"), ("md5", "mx"), ("sha256", "sx")] f) :=
  claim_C2
    [[("filename", "a"), ("type", "file"), ("mtime", "1"), ("link", ""),
      ("size", "1"), ("md5", "my"), ("sha256", "sx")]]
    [[("filename", "a"), ("type", "file"), ("mtime", "1"), ("link", ""),
      ("size", "1"), ("md5", "mx"), ("sha256", "sx")]]
    [["filename", "type", "mtime", "link", "size", "md5", "sha256"],
     ["a", "file", "1", "", "1", "mx", "sx"]]
    [("filename", "a"), ("type", "file"), ("mtime", "1"), ("link", ""),
      ("size", "1"), ("md5", "my"), ("sha256", "sx")]
    [("filename", "a"), ("type", "file"), ("mtime", "1"), ("link", ""),
      ("size", "1"), ("md5", "mx"), ("sha256", "sx")]
    rfl (by decide) (by decide) (by decide) (by decide) (by decide)
    (by decide) (by decide)

/-- Claim C10: a snapshot header containing `filename` but lacking other
recognized fields is accepted (no fatal malformed-snapshot error); the
absent field reads back as the empty string on every loaded row, so a
matched entry whose scanned value for that field is non-empty is reported
as a `Changed` mismatch whose delta shows the old value as `none`. -/
theorem claim_C10 (header : List String) (dataRows : List Row)
    (scanDb : List Record) (s c : Record) (f : String)
    (hhf : "filename" ∈ header)
    (hf_rec : f ∈ csv_fieldnames) (hf_missing : f ∉ header)
    (hs : scanDb.Pairwise (fun a b => fnameOf a < fnameOf b))
    (hcnd : ((dataRows.map (readRow header)).map fnameOf).Nodup)
    (hmems : s ∈ scanDb) (hmemc : c ∈ dataRows.map (readRow header))
    (heq : fnameOf s = fnameOf c)
    (hkeys : keysOf s = csv_fieldnames)
    (hnonempty : dgetD s f ≠ "") :
    read_csv (header :: dataRows) = .ok (dataRows.map (readRow header)) ∧
    dgetD c f = "" ∧
    (⟨f, "none", render_val f (dgetD s f)⟩ : FieldDelta) ∈ field_deltas s c ∧
    ∃ ms, compare_csv scanDb (header :: dataRows) = .ok ms ∧
      Mismatch.changed (fnameOf s) (field_deltas s c) ∈ ms := by
  have hread : read_csv (header :: dataRows) = .ok (dataRows.map (readRow header)) := by
    rw [read_csv, if_pos hhf]
  have hcf : dgetD c f = "" := by
    obtain ⟨row, _, hrow⟩ := List.mem_map.mp hmemc
    rw [dgetD, dget_none_of_not_mem]
    · rfl
    · intro hmem
      apply hf_missing
      rw [← hrow, readRow, keysOf] at hmem
      obtain ⟨pair, hpair, hfst⟩ := List.mem_map.mp hmem
      exact hfst ▸ (List.mem_zip hpair).1
  have hdifff : dgetD s f ≠ dgetD c f := by rw [hcf]; exact hnonempty
  have hdelta : (⟨f, "none", render_val f (dgetD s f)⟩ : FieldDelta) ∈ field_deltas s c := by
    rw [field_deltas, hkeys]
    apply List.mem_filterMap.mpr
    refine ⟨f, hf_rec, ?_⟩
    rw [if_neg hdifff, hcf]
    rfl
  have hne : ¬ dictEq s c = true := fun hd => hdifff (dictEq_dgetD hd f)
  have hcsv := dataRows.map (readRow header)
  have hc_le := sortByFilename_sorted (dataRows.map (readRow header))
  have hperm : (sortByFilename (dataRows.map (readRow header))).Perm
      (dataRows.map (readRow header)) := List.mergeSort_perm _ _
  have hcnd2 := ((hperm.map fnameOf).nodup_iff).mpr hcnd
  have hc_strict := pairwise_lt_of_le_nodup hc_le hcnd2
  have hmemc2 : c ∈ sortByFilename (dataRows.map (readRow header)) :=
    mem_sortByFilename.mpr hmemc
  obtain ⟨ms, hms⟩ := compare_loop_ok none scanDb
    (sortByFilename (dataRows.map (readRow header))) hc_strict
    (by intro p hp; simp at hp)
  have hmem := compare_loop_changed_mem none scanDb
    (sortByFilename (dataRows.map (readRow header))) s c ms
    hs hc_strict hmems hmemc2 heq hne hms
  refine ⟨hread, hcf, hdelta, ms, ?_, hmem⟩
  rw [compare_csv, hread]
  simp only [except_ok_bind]
  exact hms

/-- Claim C10 witness: header lacking the md5 (and other) fields, matched
against a scanned regular file with a non-empty md5. -/
theorem claim_C10_witness :
    read_csv (["filename", "type"] :: [["a", "file"]]) =
      .ok ([["a", "file"]].map (readRow ["filename", "type"])) ∧
    dgetD [("filename", "a"), ("type", "file")] "md5" = "" ∧
    (⟨"md5", "none", render_val "md5" (dgetD
        [("filename", "a"), ("type", "file"), ("mtime", "1"), ("link", ""),
          ("size", "1"), ("md5", "m"), ("sha256", "s")] "md5")⟩ : FieldDelta) ∈
      field_deltas
        [("filename", "a"), ("type", "file"), ("mtime", "1"), ("link", ""),
          ("size", "1"), ("md5", "m"), ("sha256", "s")]
        [("filename", "a"), ("type", "file")] ∧
    ∃ ms, compare_csv
        [[("filename", "a"), ("type", "file"), ("mtime", "1"), ("link", ""),
          ("size", "1"), ("md5", "m"), ("sha256", "s")]]
        (["filename", "type"] :: [["a", "file"]]) = .ok ms ∧
      Mismatch.changed
        (fnameOf [("filename", "a"), ("type", "file"), ("mtime", "1"), ("link", ""),
          ("size", "1"), ("md5", "m"), ("sha256", "s")])
        (field_deltas
          [("filename", "a"), ("type", "file"), ("mtime", "1"), ("link", ""),
            ("size", "1"), ("md5", "m"), ("sha256", "s")]
          [("filename", "a"), ("type", "file")]) ∈ ms :=
  claim_C10 ["filename", "type"] [["a", "file"]]
    [[("filename", "a"), ("type", "file"), ("mtime", "1"), ("link", ""),
      ("size", "1"), ("md5", "m"), ("sha256", "s")]]
    [("filename", "a"), ("type", "file"), ("mtime", "1"), ("link", ""),
      ("size", "1"), ("md5", "m"), ("sha256", "s")]
    [("filename", "a"), ("type", "file")]
    "md5"
    (by decide) (by decide) (by decide) (by decide) (by decide) (by decide)
    (by decide) (by decide) (by decide) (by decide)

theorem scan_file_error {rel : String} {node : FSNode} {e : RunError}
    (h : scan_file rel node = .error e) : e = .exn := by
  match node with
  | .file m readable c =>
    match readable with
    | true => simp [scan_file, hash_file_ok] at h
    | false =>
      simp only [scan_file, hash_file, if_neg (by simp : ¬ (false = true)),
        except_error_bind, Except.error.injEq] at h
      exact h.symm
  | .dir m entries => simp [scan_file] at h
  | .lnk m tg => simp [scan_file] at h
  | .chr m => simp [scan_file] at h
  | .blk m => simp [scan_file] at h
  | .fifo m => simp [scan_file] at h
  | .sock m => simp [scan_file] at h

theorem scan_error_exn (csvAbs : List String) :
    ∀ (dirAbs : List String) (rel : String) (l : List (String × FSNode)) (e : RunError),
      scan_dir csvAbs dirAbs rel l = .error e → e = .exn := by
  have H := scan_dir.mutual_induct csvAbs
    (fun dirAbs rel l => ∀ e, scan_dir csvAbs dirAbs rel l = .error e → e = .exn)
    (fun dirAbs rel node => ∀ e, scan_node_children csvAbs dirAbs rel node = .error e →
      e = .exn)
    ?caseDir ?caseNotDir ?caseNil ?caseSkip ?caseCons
  · exact fun dirAbs rel l e h => H.1 dirAbs rel l e h
  case caseDir =>
    intro dirAbs rel meta children ih e h
    rw [scan_node_children] at h
    exact ih e h
  case caseNotDir =>
    intro t dirAbs rel hnotdir e h
    match t, hnotdir with
    | .file m rd c, _ => simp [scan_node_children] at h
    | .lnk m tg, _ => simp [scan_node_children] at h
    | .chr m, _ => simp [scan_node_children] at h
    | .blk m, _ => simp [scan_node_children] at h
    | .fifo m, _ => simp [scan_node_children] at h
    | .sock m, _ => simp [scan_node_children] at h
    | .dir m ch, hnd => exact absurd rfl (hnd m ch)
  case caseNil =>
    intro dirAbs rel e h
    simp [scan_dir] at h
  case caseSkip =>
    intro dirAbs rel name node rest hexcl ih e h
    rw [scan_dir, if_pos hexcl] at h
    exact ih e h
  case caseCons =>
    intro dirAbs rel name node rest hexcl ihnode ihrest e h
    rw [scan_dir, if_neg hexcl] at h
    cases hfi : scan_file (joinRel rel name) node with
    | error e1 =>
      rw [hfi] at h
      simp only [except_error_bind, Except.error.injEq] at h
      exact h ▸ scan_file_error hfi
    | ok fi =>
      rw [hfi] at h
      cases hsub : scan_node_children csvAbs (dirAbs ++ [name]) (joinRel rel name) node with
      | error e2 =>
        rw [hsub] at h
        simp only [except_ok_bind, except_error_bind, Except.error.injEq] at h
        exact h ▸ ihnode e2 hsub
      | ok sub =>
        rw [hsub] at h
        cases hrest : scan_dir csvAbs dirAbs rel rest with
        | error e3 =>
          rw [hrest] at h
          simp only [except_ok_bind, except_error_bind, Except.error.injEq] at h
          exact h ▸ ihrest e3 hrest
        | ok restDb =>
          rw [hrest] at h
          simp at h

theorem scan_children_error_exn (csvAbs : List String)
    {dirAbs : List String} {rel : String} {node : FSNode} {e : RunError}
    (h : scan_node_children csvAbs dirAbs rel node = .error e) : e = .exn := by
  match node with
  | .dir m children =>
    rw [scan_node_children] at h
    exact scan_error_exn csvAbs dirAbs rel children e h
  | .file m rd c => simp [scan_node_children] at h
  | .lnk m tg => simp [scan_node_children] at h
  | .chr m => simp [scan_node_children] at h
  | .blk m => simp [scan_node_children] at h
  | .fifo m => simp [scan_node_children] at h
  | .sock m => simp [scan_node_children] at h

theorem unreadable_scan_error (csvAbs : List String) :
    ∀ (dirAbs : List String) (rel : String) (l : List (String × FSNode)),
      unreadableVisible csvAbs dirAbs l = true →
      scan_dir csvAbs dirAbs rel l = .error .exn := by
  have H := scan_dir.mutual_induct csvAbs
    (fun dirAbs rel l => unreadableVisible csvAbs dirAbs l = true →
      scan_dir csvAbs dirAbs rel l = .error .exn)
    (fun dirAbs rel node => unreadableVisibleNode csvAbs dirAbs node = true →
      scan_file rel node = .error .exn ∨
        scan_node_children csvAbs dirAbs rel node = .error .exn)
    ?caseDir ?caseNotDir ?caseNil ?caseSkip ?caseCons
  · exact fun dirAbs rel l h => H.1 dirAbs rel l h
  case caseDir =>
    intro dirAbs rel meta children ih h
    rw [unreadableVisibleNode] at h
    right
    rw [scan_node_children]
    exact ih h
  case caseNotDir =>
    intro t dirAbs rel hnotdir h
    match t, hnotdir, h with
    | .file m rd c, _, h =>
      left
      rw [unreadableVisibleNode] at h
      have hrd : rd = false := by
        cases rd
        · rfl
        · simp at h
      subst hrd
      simp [scan_file, hash_file]
    | .lnk m tg, _, h => simp [unreadableVisibleNode] at h
    | .chr m, _, h => simp [unreadableVisibleNode] at h
    | .blk m, _, h => simp [unreadableVisibleNode] at h
    | .fifo m, _, h => simp [unreadableVisibleNode] at h
    | .sock m, _, h => simp [unreadableVisibleNode] at h
    | .dir m ch, hnd, h => exact absurd rfl (hnd m ch)
  case caseNil =>
    intro dirAbs rel h
    simp [unreadableVisible] at h
  case caseSkip =>
    intro dirAbs rel name node rest hexcl ih h
    rw [unreadableVisible, if_pos hexcl] at h
    simp only [Bool.false_or] at h
    rw [scan_dir, if_pos hexcl]
    exact ih h
  case caseCons =>
    intro dirAbs rel name node rest hexcl ihnode ihrest h
    rw [unreadableVisible, if_neg hexcl] at h
    rw [scan_dir, if_neg hexcl]
    rcases Bool.or_eq_true_iff.mp h with hnode | hrest2
    · rcases ihnode hnode with hfi | hsub
      · rw [hfi]
        rfl
      · cases hfi : scan_file (joinRel rel name) node with
        | error e1 =>
          rw [scan_file_error hfi]
          rfl
        | ok fi =>
          rw [except_ok_bind, hsub]
          rfl
    · cases hfi : scan_file (joinRel rel name) node with
      | error e1 =>
        rw [scan_file_error hfi]
        rfl
      | ok fi =>
        rw [except_ok_bind]
        cases hsub : scan_node_children csvAbs (dirAbs ++ [name]) (joinRel rel name) node with
        | error e2 =>
          rw [scan_children_error_exn csvAbs hsub]
          rfl
        | ok sub =>
          rw [except_ok_bind, ihrest hrest2]
          rfl

/-- Claim C4 counterexample: a check run whose scan meets an unreadable
regular file does not complete with a reported mismatch set; the concrete
one-unreadable-file tree makes the run abort instead. -/
theorem claim_C4_counterexample :
    ¬ (∀ (csvAbs rootAbs : List String) (m : FMeta)
        (entries : List (String × FSNode)) (rows : List Row),
        unreadableVisible csvAbs rootAbs entries = true →
        ∃ outcome, check_run csvAbs rootAbs (.dir m entries) rows = .ok outcome) := by
  intro h
  obtain ⟨outcome, hout⟩ := h ["s"] ["r"] ⟨0, 0⟩ [("a", .file ⟨0, 0⟩ false [])]
    [["filename"]]
    (by simp [unreadableVisible, unreadableVisibleNode])
  have hcrash : check_run ["s"] ["r"] (.dir ⟨0, 0⟩ [("a", .file ⟨0, 0⟩ false [])])
      [["filename"]] = .error .exn := by
    simp [check_run, scanRoot, scan_dir, scan_node_children, scan_file, hash_file, joinRel]
  rw [hcrash] at hout
  simp at hout

/-- Claim C4, amended: a read failure while hashing during the scan is an
uncaught exception in both modes: whenever an unreadable regular file is
visible to the scan (not path-excluded), the whole check run — and equally
a hash run — aborts with the exception before any comparison, and no
per-file mismatch is reported. -/
theorem claim_C4 (csvAbs rootAbs : List String) (m : FMeta)
    (entries : List (String × FSNode)) (rows : List Row)
    (h : unreadableVisible csvAbs rootAbs entries = true) :
    check_run csvAbs rootAbs (.dir m entries) rows = .error .exn ∧
    hash_run csvAbs rootAbs (.dir m entries) = .error .exn := by
  have hscan : scanRoot csvAbs rootAbs (.dir m entries) = .error .exn := by
    rw [scanRoot]
    exact unreadable_scan_error csvAbs rootAbs "" entries h
  constructor
  · rw [check_run, hscan]
    rfl
  · rw [hash_run, hscan]
    rfl

/-- Claim C4 witness: the amended statement at the concrete tree. -/
theorem claim_C4_witness :
    check_run ["s"] ["r"] (.dir ⟨0, 0⟩ [("a", .file ⟨0, 0⟩ false [])])
      [["filename"]] = .error .exn ∧
    hash_run ["s"] ["r"] (.dir ⟨0, 0⟩ [("a", .file ⟨0, 0⟩ false [])]) = .error .exn :=
  claim_C4 ["s"] ["r"] ⟨0, 0⟩ [("a", .file ⟨0, 0⟩ false [])] [["filename"]]
    (by simp [unreadableVisible, unreadableVisibleNode])

theorem token_append_inj :
    ∀ (n m u v : List Char), '/' ∉ n → '/' ∉ m →
      (u = [] ∨ ∃ w, u = '/' :: w) → (v = [] ∨ ∃ w, v = '/' :: w) →
      n ++ u = m ++ v → n = m ∧ u = v := by
  intro n
  induction n with
  | nil =>
    intro m u v hn hm hu hv h
    match m with
    | [] => exact ⟨rfl, h⟩
    | b :: m2 =>
      exfalso
      rcases hu with rfl | ⟨w, rfl⟩
      · simp at h
      · rw [List.nil_append, List.cons_append] at h
        have hb : '/' = b := (List.cons_eq_cons.mp h).1
        exact hm (hb ▸ List.mem_cons_self b m2)
  | cons a n2 ih =>
    intro m u v hn hm hu hv h
    match m with
    | [] =>
      exfalso
      rcases hv with rfl | ⟨w, rfl⟩
      · simp at h
      · rw [List.nil_append, List.cons_append] at h
        have hb : a = '/' := (List.cons_eq_cons.mp h).1
        exact hn (hb ▸ List.mem_cons_self a n2)
    | b :: m2 =>
      rw [List.cons_append, List.cons_append] at h
      obtain ⟨hab, htail⟩ := List.cons_eq_cons.mp h
      have hn2 : '/' ∉ n2 := fun hmem => hn (List.mem_cons_of_mem a hmem)
      have hm2 : '/' ∉ m2 := fun hmem => hm (List.mem_cons_of_mem b hmem)
      obtain ⟨hnm, huv⟩ := ih m2 u v hn2 hm2 hu hv htail
      exact ⟨by rw [hab, hnm], huv⟩

theorem relTail_nil : relTail [] = [] := rfl

theorem relTail_cons (n : String) (cs : List String) :
    relTail (n :: cs) = '/' :: (n.data ++ relTail cs) := rfl

theorem relTail_append (a b : List String) :
    relTail (a ++ b) = relTail a ++ relTail b := by
  induction a with
  | nil => rfl
  | cons x a2 ih => simp [relTail_cons, relTail] at ih ⊢; simp [ih]

theorem relTail_tailok (cs : List String) :
    relTail cs = [] ∨ ∃ w, relTail cs = '/' :: w := by
  match cs with
  | [] => exact Or.inl rfl
  | n :: cs2 => exact Or.inr ⟨n.data ++ relTail cs2, rfl⟩

theorem relTail_opt_tailok (cs : List String) (opt : List Char)
    (hopt : opt = [] ∨ opt = ['/']) :
    relTail cs ++ opt = [] ∨ ∃ w, relTail cs ++ opt = '/' :: w := by
  match cs with
  | [] =>
    rcases hopt with rfl | rfl
    · exact Or.inl rfl
    · exact Or.inr ⟨[], rfl⟩
  | n :: cs2 => exact Or.inr ⟨n.data ++ relTail cs2 ++ opt, by simp [relTail_cons]⟩

theorem relTail_opt_inj :
    ∀ (cs cs2 : List String) (opt opt2 : List Char),
      (∀ x ∈ cs, x.data ≠ [] ∧ '/' ∉ x.data) →
      (∀ x ∈ cs2, x.data ≠ [] ∧ '/' ∉ x.data) →
      (opt = [] ∨ opt = ['/']) → (opt2 = [] ∨ opt2 = ['/']) →
      relTail cs ++ opt = relTail cs2 ++ opt2 →
      cs = cs2 ∧ opt = opt2 := by
  intro cs
  induction cs with
  | nil =>
    intro cs2 opt opt2 hv hv2 hopt hopt2 h
    match cs2 with
    | [] => exact ⟨rfl, h⟩
    | m :: cs3 =>
      exfalso
      have hmne : m.data ≠ [] := (hv2 m (List.mem_cons_self m cs3)).1
      have hlen : (relTail [] ++ opt).length ≤ 1 := by
        rcases hopt with rfl | rfl <;> simp [relTail]
      have hlen2 : 2 ≤ (relTail (m :: cs3) ++ opt2).length := by
        rw [relTail_cons]
        have hp : 0 < m.data.length := List.length_pos.mpr hmne
        simp only [List.cons_append, List.length_cons, List.length_append]
        omega
      rw [h] at hlen
      omega
  | cons n csx ih =>
    intro cs2 opt opt2 hv hv2 hopt hopt2 h
    match cs2 with
    | [] =>
      exfalso
      have hmne : n.data ≠ [] := (hv n (List.mem_cons_self n csx)).1
      have hlen : (relTail [] ++ opt2).length ≤ 1 := by
        rcases hopt2 with rfl | rfl <;> simp [relTail]
      have hlen2 : 2 ≤ (relTail (n :: csx) ++ opt).length := by
        rw [relTail_cons]
        have hp : 0 < n.data.length := List.length_pos.mpr hmne
        simp only [List.cons_append, List.length_cons, List.length_append]
        omega
      rw [← h] at hlen
      omega
    | m :: cs3 =>
      rw [relTail_cons, relTail_cons] at h
      rw [List.cons_append, List.cons_append] at h
      have htail := (List.cons_eq_cons.mp h).2
      rw [List.append_assoc, List.append_assoc] at htail
      obtain ⟨hnm, hrest⟩ := token_append_inj n.data m.data _ _
        (hv n (List.mem_cons_self n csx)).2 (hv2 m (List.mem_cons_self m cs3)).2
        (relTail_opt_tailok csx opt hopt) (relTail_opt_tailok cs3 opt2 hopt2) htail
      obtain ⟨hcs, hopt⟩ := ih cs3 opt opt2
        (fun x hx => hv x (List.mem_cons_of_mem n hx))
        (fun x hx => hv2 x (List.mem_cons_of_mem m hx)) hopt hopt2 hrest
      refine ⟨?_, hopt⟩
      rw [hcs]
      congr 1
      cases n
      cases m
      exact congrArg String.mk hnm

theorem string_ne_empty_of_data {s : String} (h : s.data ≠ []) : s ≠ "" := by
  intro he
  rw [he] at h
  exact h rfl

theorem joinRel_empty_pre (n : String) : joinRel "" n = n := by
  rw [joinRel, if_pos rfl]

theorem joinRel_data (pre n : String) (h : pre.data ≠ []) :
    (joinRel pre n).data = pre.data ++ '/' :: n.data := by
  rw [joinRel, if_neg (string_ne_empty_of_data h)]
  rw [String.data_append, String.data_append]
  simp

theorem foldl_joinRel_data :
    ∀ (cs : List String) (pre : String), pre.data ≠ [] →
      (cs.foldl joinRel pre).data = pre.data ++ relTail cs := by
  intro cs
  induction cs with
  | nil => intro pre h; simp [relTail]
  | cons n cs2 ih =>
    intro pre h
    rw [List.foldl_cons]
    have hjd := joinRel_data pre n h
    have hne : (joinRel pre n).data ≠ [] := by rw [hjd]; simp
    rw [ih (joinRel pre n) hne, hjd, relTail_cons]
    simp

theorem renderRelPath_cons_data (n : String) (cs : List String) (h : n.data ≠ []) :
    (renderRelPath (n :: cs)).data = n.data ++ relTail cs := by
  rw [renderRelPath, List.foldl_cons, joinRel_empty_pre]
  exact foldl_joinRel_data cs n h

theorem render_snoc (cs : List String) (n : String) :
    renderRelPath (cs ++ [n]) = joinRel (renderRelPath cs) n := by
  rw [renderRelPath, renderRelPath, List.foldl_append, List.foldl_cons, List.foldl_nil]

theorem render_append_cons_data (relComps : List String)
    (hv : ∀ x ∈ relComps, x.data ≠ []) :
    ∃ P : List Char, ∀ (n : String) (cs : List String), n.data ≠ [] →
      (renderRelPath (relComps ++ n :: cs)).data = P ++ (n.data ++ relTail cs) := by
  match relComps with
  | [] =>
    refine ⟨[], fun n cs hn => ?_⟩
    rw [List.nil_append, List.nil_append]
    exact renderRelPath_cons_data n cs hn
  | r :: rc =>
    refine ⟨r.data ++ relTail rc ++ ['/'], fun n cs hn => ?_⟩
    have hr : r.data ≠ [] := hv r (List.mem_cons_self r rc)
    rw [List.cons_append, renderRelPath_cons_data r _ hr, relTail_append, relTail_cons]
    simp

theorem shape_ne_of_name_ne {P : List Char} {n1 n2 : String} {cs1 cs2 : List String}
    {o1 o2 : List Char}
    (hn1 : n1.data ≠ [] ∧ '/' ∉ n1.data) (hn2 : n2.data ≠ [] ∧ '/' ∉ n2.data)
    (hne : n1 ≠ n2)
    (ho1 : o1 = [] ∨ o1 = ['/']) (ho2 : o2 = [] ∨ o2 = ['/']) :
    P ++ (n1.data ++ (relTail cs1 ++ o1)) ≠ P ++ (n2.data ++ (relTail cs2 ++ o2)) := by
  intro h
  have h2 := List.append_cancel_left h
  obtain ⟨hd, _⟩ := token_append_inj n1.data n2.data _ _ hn1.2 hn2.2
    (relTail_opt_tailok cs1 o1 ho1) (relTail_opt_tailok cs2 o2 ho2) h2
  apply hne
  cases n1
  cases n2
  exact congrArg String.mk hd

theorem shape_ne_head_sub {R o1 o2 : List Char} {cs : List String}
    (ho1 : o1 = [] ∨ o1 = ['/']) (hcs : cs ≠ [])
    (hv : ∀ x ∈ cs, x.data ≠ []) :
    R ++ o1 ≠ R ++ (relTail cs ++ o2) := by
  intro h
  have h2 := List.append_cancel_left h
  match cs, hcs with
  | m :: cs2, _ =>
    have hm : m.data ≠ [] := hv m (List.mem_cons_self m cs2)
    have hp : 0 < m.data.length := List.length_pos.mpr hm
    have hlen1 : o1.length ≤ 1 := by rcases ho1 with rfl | rfl <;> simp
    have hlen2 : 2 ≤ (relTail (m :: cs2) ++ o2).length := by
      rw [relTail_cons]
      simp only [List.cons_append, List.length_cons, List.length_append]
      omega
    rw [← h2] at hlen2
    omega

theorem scan_file_fname {rel : String} {node : FSNode} {r : Record}
    (h : scan_file rel node = .ok r) :
    (fnameOf r).data = rel.data ++ (if nodeType node = "dir" then ['/'] else []) := by
  match node with
  | .file m readable c =>
    match readable with
    | true =>
      simp [scan_file, nodeType, hash_file_ok] at h
      subst h
      simp [fnameOf, dgetD, dget, nodeType]
    | false => simp [scan_file, hash_file] at h
  | .dir m entries =>
    simp [scan_file, nodeType] at h
    subst h
    simp [fnameOf, dgetD, dget, nodeType, String.data_append]
  | .lnk m target =>
    simp [scan_file, nodeType] at h
    subst h
    simp [fnameOf, dgetD, dget, nodeType]
  | .chr m =>
    simp [scan_file, nodeType] at h
    subst h
    simp [fnameOf, dgetD, dget, nodeType]
  | .blk m =>
    simp [scan_file, nodeType] at h
    subst h
    simp [fnameOf, dgetD, dget, nodeType]
  | .fifo m =>
    simp [scan_file, nodeType] at h
    subst h
    simp [fnameOf, dgetD, dget, nodeType]
  | .sock m =>
    simp [scan_file, nodeType] at h
    subst h
    simp [fnameOf, dgetD, dget, nodeType]

theorem wfEntries_cons {name : String} {node : FSNode} {rest : List (String × FSNode)}
    (h : wfEntries ((name, node) :: rest) = true) :
    name.data ≠ [] ∧ '/' ∉ name.data ∧ (∀ e ∈ rest, e.1 ≠ name) ∧
      wfNode node = true ∧ wfEntries rest = true := by
  rw [wfEntries] at h
  simp only [Bool.and_eq_true, decide_eq_true_eq, List.all_eq_true,
    Bool.not_eq_true'] at h
  obtain ⟨⟨⟨⟨h1, h2⟩, h3⟩, h4⟩, h5⟩ := h
  refine ⟨h1, ?_, h3, h4, h5⟩
  intro hmem
  have := List.elem_iff.mpr hmem
  rw [List.contains] at h2
  rw [h2] at this
  exact Bool.false_ne_true this

theorem opt_ne_relTail_opt {o1 o2 : List Char} {cs : List String}
    (ho1 : o1 = [] ∨ o1 = ['/']) (hcs : cs ≠ [])
    (hv : ∀ x ∈ cs, x.data ≠ []) :
    o1 ≠ relTail cs ++ o2 := by
  intro h
  match cs, hcs with
  | m :: cs2, _ =>
    have hm : m.data ≠ [] := hv m (List.mem_cons_self m cs2)
    have hp : 0 < m.data.length := List.length_pos.mpr hm
    have hlen1 : o1.length ≤ 1 := by rcases ho1 with rfl | rfl <;> simp
    have hlen2 : 2 ≤ (relTail (m :: cs2) ++ o2).length := by
      rw [relTail_cons]
      simp only [List.cons_append, List.length_cons, List.length_append]
      omega
    rw [← h] at hlen2
    omega

theorem scan_shape_nodup (csvAbs : List String) :
    ∀ (dirAbs : List String) (rel : String) (l : List (String × FSNode))
      (relComps : List String) (db : List Record),
      rel = renderRelPath relComps →
      (∀ x ∈ relComps, x.data ≠ [] ∧ '/' ∉ x.data) →
      wfEntries l = true →
      scan_dir csvAbs dirAbs rel l = .ok db →
      ((∀ fi ∈ db, ∃ n cs opt,
          n ∈ l.map Prod.fst ∧
          (n.data ≠ [] ∧ '/' ∉ n.data) ∧
          (∀ x ∈ cs, x.data ≠ [] ∧ '/' ∉ x.data) ∧
          (opt = [] ∨ opt = ['/']) ∧
          dirAbs ++ n :: cs ≠ csvAbs ∧
          (fnameOf fi).data = (renderRelPath (relComps ++ n :: cs)).data ++ opt) ∧
        (db.map fnameOf).Nodup) := by
  have H := scan_dir.mutual_induct csvAbs
    (fun dirAbs rel l => ∀ relComps db,
      rel = renderRelPath relComps →
      (∀ x ∈ relComps, x.data ≠ [] ∧ '/' ∉ x.data) →
      wfEntries l = true →
      scan_dir csvAbs dirAbs rel l = .ok db →
      ((∀ fi ∈ db, ∃ n cs opt,
          n ∈ l.map Prod.fst ∧
          (n.data ≠ [] ∧ '/' ∉ n.data) ∧
          (∀ x ∈ cs, x.data ≠ [] ∧ '/' ∉ x.data) ∧
          (opt = [] ∨ opt = ['/']) ∧
          dirAbs ++ n :: cs ≠ csvAbs ∧
          (fnameOf fi).data = (renderRelPath (relComps ++ n :: cs)).data ++ opt) ∧
        (db.map fnameOf).Nodup))
    (fun dirAbs rel node => ∀ relComps db,
      rel = renderRelPath relComps →
      (∀ x ∈ relComps, x.data ≠ [] ∧ '/' ∉ x.data) →
      wfNode node = true →
      scan_node_children csvAbs dirAbs rel node = .ok db →
      ((∀ fi ∈ db, ∃ cs opt,
          cs ≠ [] ∧
          (∀ x ∈ cs, x.data ≠ [] ∧ '/' ∉ x.data) ∧
          (opt = [] ∨ opt = ['/']) ∧
          dirAbs ++ cs ≠ csvAbs ∧
          (fnameOf fi).data = (renderRelPath (relComps ++ cs)).data ++ opt) ∧
        (db.map fnameOf).Nodup))
    ?caseDir ?caseNotDir ?caseNil ?caseSkip ?caseCons
  · exact fun dirAbs rel l relComps db h1 h2 h3 h4 => H.1 dirAbs rel l relComps db h1 h2 h3 h4
  case caseDir =>
    intro dirAbs rel meta children ih relComps db h1 h2 hwf hscan
    rw [scan_node_children] at hscan
    rw [wfNode] at hwf
    obtain ⟨hshape, hnd⟩ := ih relComps db h1 h2 hwf hscan
    refine ⟨?_, hnd⟩
    intro fi hfi
    obtain ⟨n, cs, opt, hmem, hn, hcs, hopt, habs, hdata⟩ := hshape fi hfi
    refine ⟨n :: cs, opt, by simp, ?_, hopt, habs, hdata⟩
    intro x hx
    rcases List.mem_cons.mp hx with rfl | hx2
    · exact hn
    · exact hcs x hx2
  case caseNotDir =>
    intro t dirAbs rel hnotdir relComps db h1 h2 hwf hscan
    have hdb : db = [] := by
      match t, hnotdir with
      | .file m rd c, _ =>
        simp only [scan_node_children, Except.ok.injEq] at hscan
        exact hscan.symm
      | .lnk m tg, _ =>
        simp only [scan_node_children, Except.ok.injEq] at hscan
        exact hscan.symm
      | .chr m, _ =>
        simp only [scan_node_children, Except.ok.injEq] at hscan
        exact hscan.symm
      | .blk m, _ =>
        simp only [scan_node_children, Except.ok.injEq] at hscan
        exact hscan.symm
      | .fifo m, _ =>
        simp only [scan_node_children, Except.ok.injEq] at hscan
        exact hscan.symm
      | .sock m, _ =>
        simp only [scan_node_children, Except.ok.injEq] at hscan
        exact hscan.symm
      | .dir m ch, hnd => exact absurd rfl (hnd m ch)
    subst hdb
    exact ⟨by intro fi hfi; simp at hfi, by simp⟩
  case caseNil =>
    intro dirAbs rel relComps db h1 h2 hwf hscan
    simp only [scan_dir, Except.ok.injEq] at hscan
    subst hscan
    exact ⟨by intro fi hfi; simp at hfi, by simp⟩
  case caseSkip =>
    intro dirAbs rel name node rest hexcl ih relComps db h1 h2 hwf hscan
    rw [scan_dir, if_pos hexcl] at hscan
    obtain ⟨_, _, _, _, hwfrest⟩ := wfEntries_cons hwf
    obtain ⟨hshape, hnd⟩ := ih relComps db h1 h2 hwfrest hscan
    refine ⟨?_, hnd⟩
    intro fi hfi
    obtain ⟨n, cs, opt, hmem, hrest⟩ := hshape fi hfi
    refine ⟨n, cs, opt, ?_, hrest⟩
    rw [List.map_cons]
    exact List.mem_cons_of_mem _ hmem
  case caseCons =>
    intro dirAbs rel name node rest hexcl ihnode ihrest relComps db h1 h2 hwf hscan
    obtain ⟨hname_ne, hname_nc, hrest_names, hwfnode, hwfrest⟩ := wfEntries_cons hwf
    rw [scan_dir, if_neg hexcl] at hscan
    cases hfi : scan_file (joinRel rel name) node with
    | error e => rw [hfi] at hscan; simp at hscan
    | ok fi =>
    rw [hfi] at hscan
    cases hsub : scan_node_children csvAbs (dirAbs ++ [name]) (joinRel rel name) node with
    | error e => rw [hsub] at hscan; simp at hscan
    | ok sub =>
    rw [hsub] at hscan
    cases hrest2 : scan_dir csvAbs dirAbs rel rest with
    | error e => rw [hrest2] at hscan; simp at hscan
    | ok restDb =>
    rw [hrest2] at hscan
    simp only [except_ok_bind, except_pure_eq, Except.ok.injEq] at hscan
    subst hscan
    have hrel2 : joinRel rel name = renderRelPath (relComps ++ [name]) := by
      rw [render_snoc, ← h1]
    have hcomps2 : ∀ x ∈ relComps ++ [name], x.data ≠ [] ∧ '/' ∉ x.data := by
      intro x hx
      rcases List.mem_append.mp hx with hx1 | hx2
      · exact h2 x hx1
      · simp only [List.mem_singleton] at hx2
        subst hx2
        exact ⟨hname_ne, hname_nc⟩
    obtain ⟨hshape2, hnd2⟩ := ihnode (relComps ++ [name]) sub hrel2 hcomps2 hwfnode hsub
    obtain ⟨hshape1, hnd1⟩ := ihrest relComps restDb h1 h2 hwfrest hrest2
    have hfdata := scan_file_fname hfi
    have hoptF : (if nodeType node = "dir" then ['/'] else ([] : List Char)) = [] ∨
        (if nodeType node = "dir" then ['/'] else ([] : List Char)) = ['/'] := by
      by_cases hd : nodeType node = "dir"
      · rw [if_pos hd]; exact Or.inr rfl
      · rw [if_neg hd]; exact Or.inl rfl
    have hhead_data : (fnameOf fi).data =
        (renderRelPath (relComps ++ name :: [])).data ++
          (if nodeType node = "dir" then ['/'] else []) := by
      rw [hfdata, hrel2]
    obtain ⟨P, hP⟩ := render_append_cons_data relComps (fun x hx => (h2 x hx).1)
    -- normalized data forms
    have hhead_P : (fnameOf fi).data =
        P ++ (name.data ++ (if nodeType node = "dir" then ['/'] else [])) := by
      rw [hhead_data, hP name [] hname_ne]
      simp [relTail]
    have hsub_P : ∀ g ∈ sub, ∃ cs opt, cs ≠ [] ∧
        (∀ x ∈ cs, x.data ≠ [] ∧ '/' ∉ x.data) ∧ (opt = [] ∨ opt = ['/']) ∧
        (fnameOf g).data = P ++ (name.data ++ (relTail cs ++ opt)) := by
      intro g hg
      obtain ⟨cs, opt, hcs_ne, hcs_v, hopt, _, hdata⟩ := hshape2 g hg
      refine ⟨cs, opt, hcs_ne, hcs_v, hopt, ?_⟩
      rw [hdata]
      have : relComps ++ [name] ++ cs = relComps ++ name :: cs := by simp
      rw [this, hP name cs hname_ne]
      simp
    have hrest_P : ∀ g ∈ restDb, ∃ m cs opt, m ∈ rest.map Prod.fst ∧
        (m.data ≠ [] ∧ '/' ∉ m.data) ∧ (opt = [] ∨ opt = ['/']) ∧
        (fnameOf g).data = P ++ (m.data ++ (relTail cs ++ opt)) := by
      intro g hg
      obtain ⟨m, cs, opt, hmem, hm, hcs_v, hopt, _, hdata⟩ := hshape1 g hg
      refine ⟨m, cs, opt, hmem, hm, hopt, ?_⟩
      rw [hdata, hP m cs hm.1]
      simp
    have hname_ne_rest : ∀ m, m ∈ rest.map Prod.fst → name ≠ m := by
      intro m hm heq
      obtain ⟨e, he, hfst⟩ := List.mem_map.mp hm
      exact hrest_names e he (by rw [hfst, ← heq])
    refine ⟨?_, ?_⟩
    · -- shape of every record
      intro g hg
      rcases List.mem_cons.mp hg with rfl | hg2
      · refine ⟨name, [], (if nodeType node = "dir" then ['/'] else []), ?_,
          ⟨hname_ne, hname_nc⟩, by intro x hx; simp at hx, hoptF, ?_, hhead_data⟩
        · rw [List.map_cons]; exact List.mem_cons_self _ _
        · simpa using hexcl
      · rcases List.mem_append.mp hg2 with hgs | hgr
        · obtain ⟨cs, opt, hcs_ne, hcs_v, hopt, habs, hdata⟩ := hshape2 g hgs
          refine ⟨name, cs, opt, ?_, ⟨hname_ne, hname_nc⟩, hcs_v, hopt, ?_, ?_⟩
          · rw [List.map_cons]; exact List.mem_cons_self _ _
          · intro he
            apply habs
            rw [← he]
            simp
          · rw [hdata]
            have : relComps ++ [name] ++ cs = relComps ++ name :: cs := by simp
            rw [this]
        · obtain ⟨m, cs, opt, hmem, hrest'⟩ := hshape1 g hgr
          refine ⟨m, cs, opt, ?_, hrest'⟩
          rw [List.map_cons]
          exact List.mem_cons_of_mem _ hmem
    · -- nodup of the filename list
      rw [List.map_cons, List.nodup_cons, List.map_append, List.nodup_append]
      refine ⟨?_, hnd2, hnd1, ?_⟩
      · intro hmem
        rcases List.mem_append.mp hmem with hA | hB
        · obtain ⟨g, hg, hgf⟩ := List.mem_map.mp hA
          obtain ⟨cs, opt, hcs_ne, hcs_v, hopt, hdata⟩ := hsub_P g hg
          have hdd : (fnameOf fi).data = (fnameOf g).data := by rw [hgf]
          rw [hhead_P, hdata] at hdd
          have hc1 := List.append_cancel_left hdd
          have hc2 := List.append_cancel_left hc1
          exact opt_ne_relTail_opt hoptF hcs_ne (fun x hx => (hcs_v x hx).1) hc2
        · obtain ⟨g, hg, hgf⟩ := List.mem_map.mp hB
          obtain ⟨m, cs, opt, hmem2, hm, hopt, hdata⟩ := hrest_P g hg
          have hdd : (fnameOf fi).data = (fnameOf g).data := by rw [hgf]
          rw [hhead_P, hdata] at hdd
          have hdd3 : P ++ (name.data ++ (relTail [] ++
              (if nodeType node = "dir" then ['/'] else []))) =
              P ++ (m.data ++ (relTail cs ++ opt)) := by
            rw [relTail_nil, List.nil_append]
            exact hdd
          exact shape_ne_of_name_ne ⟨hname_ne, hname_nc⟩ hm
            (hname_ne_rest m hmem2) hoptF hopt hdd3
      · rw [List.disjoint_left]
        intro a hA hB
        obtain ⟨g, hg, hgf⟩ := List.mem_map.mp hA
        obtain ⟨g2, hg2, hg2f⟩ := List.mem_map.mp hB
        obtain ⟨cs, opt, hcs_ne, hcs_v, hopt, hdata⟩ := hsub_P g hg
        obtain ⟨m, cs2, opt2, hmem2, hm, hopt2, hdata2⟩ := hrest_P g2 hg2
        have hdd : (fnameOf g).data = (fnameOf g2).data := by rw [hgf, hg2f]
        rw [hdata, hdata2] at hdd
        exact shape_ne_of_name_ne ⟨hname_ne, hname_nc⟩ hm
          (hname_ne_rest m hmem2) hopt hopt2 hdd

theorem scan_fnames_nodup {csvAbs rootAbs : List String} {m : FMeta}
    {entries : List (String × FSNode)} {db : List Record}
    (hwf : wfEntries entries = true)
    (hscan : scanRoot csvAbs rootAbs (.dir m entries) = .ok db) :
    (db.map fnameOf).Nodup := by
  rw [scanRoot] at hscan
  exact (scan_shape_nodup csvAbs rootAbs "" entries [] db rfl
    (by intro x hx; simp at hx) hwf hscan).2

/-- Claim C3: a snapshot with two rows sharing the same filename makes a
check run end in the fatal duplicate-entry `sys.exit`, whose message names a
path that indeed occurs at least twice in the loaded snapshot, instead of
completing a comparison. -/
theorem claim_C3 (csvAbs rootAbs : List String) (m : FMeta)
    (entries : List (String × FSNode)) (rows : List Row)
    (db0 csvDb : List Record)
    (hwf : wfEntries entries = true)
    (hscan : scanRoot csvAbs rootAbs (.dir m entries) = .ok db0)
    (hread : read_csv rows = .ok csvDb)
    (hdup : ¬ (csvDb.map fnameOf).Nodup) :
    ∃ fn, check_run csvAbs rootAbs (.dir m entries) rows =
        .error (.exitErr (dup_msg fn)) ∧
      2 ≤ (csvDb.map fnameOf).count fn := by
  have hsorted_le := sortByFilename_sorted db0
  have hperm_scan : (sortByFilename db0).Perm db0 := List.mergeSort_perm db0 _
  have hnd_scan : ((sortByFilename db0).map fnameOf).Nodup :=
    ((hperm_scan.map fnameOf).nodup_iff).mpr (scan_fnames_nodup hwf hscan)
  have hperm_csv : (sortByFilename csvDb).Perm csvDb := List.mergeSort_perm csvDb _
  have hdup2 : ¬ ((sortByFilename csvDb).map fnameOf).Nodup := by
    intro hnd
    exact hdup (((hperm_csv.map fnameOf).nodup_iff).mp hnd)
  obtain ⟨l1, p, q, l2, hsplit, hpq⟩ :=
    sorted_dup_adjacent (sortByFilename_sorted csvDb) hdup2
  obtain ⟨fn, herr, hcount⟩ := compare_loop_dup_abort none (sortByFilename db0)
    (sortByFilename csvDb) (sortByFilename csvDb) hsorted_le hnd_scan
    (Or.inl ⟨rfl, rfl⟩) (by intro p1 hp1; simp at hp1)
    (Or.inl ⟨l1, p, q, l2, hsplit, hpq⟩)
  refine ⟨fn, ?_, ?_⟩
  · rw [check_run, hscan]
    simp only [except_ok_bind]
    rw [compare_csv, hread]
    simp only [except_ok_bind]
    rw [herr]
    rfl
  · rw [← (hperm_csv.map fnameOf).count_eq fn]
    exact hcount

/-- Claim C3 witness: a snapshot with the row for path `a` appearing twice. -/
theorem claim_C3_witness :
    ∃ fn, check_run ["snap"] ["root"] (.dir ⟨5, 4096⟩ [("a", .file ⟨1, 1⟩ true [7])])
        [["filename", "type", "mtime", "link", "size", "md5", "sha256"],
         ["a", "file", "1", "", "1", "md5:[7]", "sha256:[7]"],
         ["a", "file", "2", "", "1", "md5:[7]", "sha256:[7]"]] =
        .error (.exitErr (dup_msg fn)) ∧
      2 ≤ ((([["a", "file", "1", "", "1", "md5:[7]", "sha256:[7]"],
             ["a", "file", "2", "", "1", "md5:[7]", "sha256:[7]"]] : List Row).map
          (readRow ["filename", "type", "mtime", "link", "size", "md5", "sha256"])).map
          fnameOf).count fn :=
  claim_C3 ["snap"] ["root"] ⟨5, 4096⟩ [("a", .file ⟨1, 1⟩ true [7])]
    [["filename", "type", "mtime", "link", "size", "md5", "sha256"],
     ["a", "file", "1", "", "1", "md5:[7]", "sha256:[7]"],
     ["a", "file", "2", "", "1", "md5:[7]", "sha256:[7]"]]
    [[("filename", "a"), ("type", "file"), ("mtime", "1"), ("link", ""),
      ("size", "1"), ("md5", "md5:[7]"), ("sha256", "sha256:[7]")]]
    ([["a", "file", "1", "", "1", "md5:[7]", "sha256:[7]"],
      ["a", "file", "2", "", "1", "md5:[7]", "sha256:[7]"]].map
      (readRow ["filename", "type", "mtime", "link", "size", "md5", "sha256"]))
    (by simp [wfEntries, wfNode])
    (by simp [scanRoot, scan_dir, scan_node_children, scan_file, nodeType, nodeMeta,
      hash_file_ok, joinRel, hexdigest] <;> decide)
    rfl
    (by decide)

theorem scan_file_congr {t1 t2 : FSNode} (h : FSP t1 t2) (rel : String) :
    scan_file rel t1 = scan_file rel t2 := by
  induction h with
  | file m rd c => rfl
  | lnk m t => rfl
  | chr m => rfl
  | blk m => rfl
  | fifo m => rfl
  | sock m => rfl
  | dirNil m => rfl
  | dirCons m n ht hl iht ihl => simp [scan_file, nodeType, nodeMeta]
  | dirSwap m a b l => simp [scan_file, nodeType, nodeMeta]
  | trans hab hbc ihab ihbc => exact ihab.trans ihbc

@[simp] theorem except_bind_ok_meth {ε α β : Type} (a : α) (f : α → Except ε β) :
    (Except.ok a : Except ε α).bind f = f a := rfl

@[simp] theorem except_bind_error_meth {ε α β : Type} (e : ε) (f : α → Except ε β) :
    (Except.error e : Except ε α).bind f = .error e := rfl

theorem scan_dir_cons_eq (csv dirAbs : List String) (rel name : String)
    (node : FSNode) (rest : List (String × FSNode))
    (h : ¬ dirAbs ++ [name] = csv) :
    scan_dir csv dirAbs rel ((name, node) :: rest) =
      (scan_file (joinRel rel name) node).bind (fun fi =>
        (scan_node_children csv (dirAbs ++ [name]) (joinRel rel name) node).bind (fun sub =>
          (scan_dir csv dirAbs rel rest).bind (fun restDb =>
            pure (fi :: (sub ++ restDb))))) := by
  rw [scan_dir, if_neg h]
  rfl

theorem fsp_scan_rel {a b : FSNode} (h : FSP a b) :
    ∀ (csv dirAbs : List String) (rel : String),
      (scan_node_children csv dirAbs rel a = .error .exn ∧
        scan_node_children csv dirAbs rel b = .error .exn) ∨
      (∃ db1 db2, scan_node_children csv dirAbs rel a = .ok db1 ∧
        scan_node_children csv dirAbs rel b = .ok db2 ∧ db1.Perm db2) := by
  have hR_of_eq : ∀ (x : Except RunError (List Record)),
      (∀ e, x = .error e → e = .exn) →
      ((x = .error .exn ∧ x = .error .exn) ∨
        (∃ d1 d2, x = .ok d1 ∧ x = .ok d2 ∧ d1.Perm d2)) := by
    intro x herr
    cases x with
    | error e =>
      have := herr e rfl
      subst this
      exact Or.inl ⟨rfl, rfl⟩
    | ok d => exact Or.inr ⟨d, d, rfl, rfl, List.Perm.refl d⟩
  induction h with
  | file m rd c => intro csv dirAbs rel; exact Or.inr ⟨[], [], rfl, rfl, List.Perm.nil⟩
  | lnk m t => intro csv dirAbs rel; exact Or.inr ⟨[], [], rfl, rfl, List.Perm.nil⟩
  | chr m => intro csv dirAbs rel; exact Or.inr ⟨[], [], rfl, rfl, List.Perm.nil⟩
  | blk m => intro csv dirAbs rel; exact Or.inr ⟨[], [], rfl, rfl, List.Perm.nil⟩
  | fifo m => intro csv dirAbs rel; exact Or.inr ⟨[], [], rfl, rfl, List.Perm.nil⟩
  | sock m => intro csv dirAbs rel; exact Or.inr ⟨[], [], rfl, rfl, List.Perm.nil⟩
  | dirNil m =>
    intro csv dirAbs rel
    exact Or.inr ⟨[], [], rfl, rfl, List.Perm.nil⟩
  | dirCons m n ht hl iht ihl =>
    intro csv dirAbs rel
    rw [scan_node_children, scan_node_children]
    by_cases hexcl : dirAbs ++ [n] = csv
    · rw [scan_dir, if_pos hexcl, scan_dir, if_pos hexcl]
      have := ihl csv dirAbs rel
      rw [scan_node_children, scan_node_children] at this
      exact this
    · rw [scan_dir_cons_eq csv dirAbs rel n _ _ hexcl,
        scan_dir_cons_eq csv dirAbs rel n _ _ hexcl,
        ← scan_file_congr ht (joinRel rel n)]
      cases hFa : scan_file (joinRel rel n) _ with
      | error e =>
        have he := scan_file_error hFa
        subst he
        exact Or.inl ⟨rfl, rfl⟩
      | ok fi =>
        simp only [except_bind_ok_meth]
        rcases iht csv (dirAbs ++ [n]) (joinRel rel n) with ⟨hs1, hs2⟩ |
          ⟨s1, s2, hs1, hs2, hsp⟩
        · rw [hs1, hs2]
          exact Or.inl ⟨rfl, rfl⟩
        · rw [hs1, hs2]
          simp only [except_bind_ok_meth]
          have hrest := ihl csv dirAbs rel
          rw [scan_node_children, scan_node_children] at hrest
          rcases hrest with ⟨hr1, hr2⟩ | ⟨r1, r2, hr1, hr2, hrp⟩
          · rw [hr1, hr2]
            exact Or.inl ⟨rfl, rfl⟩
          · rw [hr1, hr2]
            simp only [except_bind_ok_meth, except_pure_eq]
            exact Or.inr ⟨_, _, rfl, rfl, List.Perm.cons fi (hsp.append hrp)⟩
  | dirSwap m a2 b2 l =>
    intro csv dirAbs rel
    obtain ⟨na, ta⟩ := a2
    obtain ⟨nb, tb⟩ := b2
    rw [scan_node_children, scan_node_children]
    by_cases hea : dirAbs ++ [na] = csv <;> by_cases heb : dirAbs ++ [nb] = csv
    · -- both excluded: both sides reduce to the scan of l
      have heq : scan_dir csv dirAbs rel ((na, ta) :: (nb, tb) :: l) =
          scan_dir csv dirAbs rel ((nb, tb) :: (na, ta) :: l) := by
        rw [scan_dir, if_pos hea, scan_dir, if_pos heb,
          scan_dir, if_pos heb, scan_dir, if_pos hea]
      rw [heq]
      exact hR_of_eq _ (fun e he => scan_error_exn csv dirAbs rel _ e he)
    · -- a excluded, b not
      have heq : scan_dir csv dirAbs rel ((na, ta) :: (nb, tb) :: l) =
          scan_dir csv dirAbs rel ((nb, tb) :: (na, ta) :: l) := by
        rw [scan_dir, if_pos hea,
          scan_dir_cons_eq csv dirAbs rel nb tb _ heb,
          scan_dir_cons_eq csv dirAbs rel nb tb _ heb,
          scan_dir, if_pos hea]
      rw [heq]
      exact hR_of_eq _ (fun e he => scan_error_exn csv dirAbs rel _ e he)
    · -- b excluded, a not
      have heq : scan_dir csv dirAbs rel ((na, ta) :: (nb, tb) :: l) =
          scan_dir csv dirAbs rel ((nb, tb) :: (na, ta) :: l) := by
        rw [scan_dir_cons_eq csv dirAbs rel na ta _ hea,
          scan_dir, if_pos heb,
          scan_dir, if_pos heb,
          scan_dir_cons_eq csv dirAbs rel na ta _ hea]
      rw [heq]
      exact hR_of_eq _ (fun e he => scan_error_exn csv dirAbs rel _ e he)
    · -- neither excluded: unfold both sides to bind-normal form, then case on the
      -- five atomic computations
      rw [scan_dir_cons_eq csv dirAbs rel na ta _ hea,
        scan_dir_cons_eq csv dirAbs rel nb tb _ heb,
        scan_dir_cons_eq csv dirAbs rel nb tb _ heb,
        scan_dir_cons_eq csv dirAbs rel na ta _ hea]
      cases hFa : scan_file (joinRel rel na) ta with
      | error e =>
        have he := scan_file_error hFa
        subst he
        cases hFb : scan_file (joinRel rel nb) tb with
        | error e2 =>
          have := scan_file_error hFb
          subst this
          exact Or.inl ⟨rfl, rfl⟩
        | ok fb =>
          cases hSb : scan_node_children csv (dirAbs ++ [nb]) (joinRel rel nb) tb with
          | error e2 =>
            have := scan_children_error_exn csv hSb
            subst this
            exact Or.inl ⟨rfl, rfl⟩
          | ok sb => exact Or.inl ⟨rfl, rfl⟩
      | ok fa =>
        cases hSa : scan_node_children csv (dirAbs ++ [na]) (joinRel rel na) ta with
        | error e =>
          have he := scan_children_error_exn csv hSa
          subst he
          cases hFb : scan_file (joinRel rel nb) tb with
          | error e2 =>
            have := scan_file_error hFb
            subst this
            exact Or.inl ⟨rfl, rfl⟩
          | ok fb =>
            cases hSb : scan_node_children csv (dirAbs ++ [nb]) (joinRel rel nb) tb with
            | error e2 =>
              have := scan_children_error_exn csv hSb
              subst this
              exact Or.inl ⟨rfl, rfl⟩
            | ok sb => exact Or.inl ⟨rfl, rfl⟩
        | ok sa =>
          cases hFb : scan_file (joinRel rel nb) tb with
          | error e =>
            have he := scan_file_error hFb
            subst he
            exact Or.inl ⟨rfl, rfl⟩
          | ok fb =>
            cases hSb : scan_node_children csv (dirAbs ++ [nb]) (joinRel rel nb) tb with
            | error e =>
              have he := scan_children_error_exn csv hSb
              subst he
              exact Or.inl ⟨rfl, rfl⟩
            | ok sb =>
              cases hL : scan_dir csv dirAbs rel l with
              | error e =>
                have he := scan_error_exn csv dirAbs rel l e hL
                subst he
                exact Or.inl ⟨rfl, rfl⟩
              | ok rl =>
                refine Or.inr ⟨fa :: (sa ++ (fb :: (sb ++ rl))),
                  fb :: (sb ++ (fa :: (sa ++ rl))), rfl, rfl, ?_⟩
                have h1 : fa :: (sa ++ (fb :: (sb ++ rl))) =
                    (fa :: sa) ++ ((fb :: sb) ++ rl) := by simp
                have h2 : fb :: (sb ++ (fa :: (sa ++ rl))) =
                    (fb :: sb) ++ ((fa :: sa) ++ rl) := by simp
                rw [h1, h2, ← List.append_assoc, ← List.append_assoc]
                exact (List.perm_append_comm).append_right rl
  | trans hab hbc ihab ihbc =>
    intro csv dirAbs rel
    rcases ihab csv dirAbs rel with ⟨ha, hb⟩ | ⟨d1, d2, ha, hb, hp⟩
    · rcases ihbc csv dirAbs rel with ⟨hb2, hc⟩ | ⟨e1, e2, hb2, hc, hp2⟩
      · exact Or.inl ⟨ha, hc⟩
      · rw [hb] at hb2
        simp at hb2
    · rcases ihbc csv dirAbs rel with ⟨hb2, hc⟩ | ⟨e1, e2, hb2, hc, hp2⟩
      · rw [hb] at hb2
        simp at hb2
      · rw [hb] at hb2
        have : e1 = d2 := by
          have := (Except.ok.injEq _ _).mp hb2
          exact this.symm
        subst this
        exact Or.inr ⟨d1, e2, ha, hc, hp.trans hp2⟩

theorem sorted_nodup_perm_eq {l1 l2 : List Record}
    (hp : l1.Perm l2)
    (hs1 : l1.Pairwise (fun a b => fnameOf a ≤ fnameOf b))
    (hs2 : l2.Pairwise (fun a b => fnameOf a ≤ fnameOf b))
    (hnd : (l1.map fnameOf).Nodup) : l1 = l2 := by
  have hnd2 : (l2.map fnameOf).Nodup := ((hp.map fnameOf).nodup_iff).mp hnd
  have hne1 : l1.Pairwise (fun a b => fnameOf a ≠ fnameOf b) := List.pairwise_map.mp hnd
  have hne2 : l2.Pairwise (fun a b => fnameOf a ≠ fnameOf b) := List.pairwise_map.mp hnd2
  have hlt1 : l1.Pairwise (fun a b => fnameOf a < fnameOf b) :=
    (hs1.and hne1).imp (fun h => lt_of_le_of_ne h.1 h.2)
  have hlt2 : l2.Pairwise (fun a b => fnameOf a < fnameOf b) :=
    (hs2.and hne2).imp (fun h => lt_of_le_of_ne h.1 h.2)
  haveI : IsAntisymm Record (fun a b => fnameOf a < fnameOf b) :=
    ⟨fun a b hab hba => absurd (lt_trans hab hba) (lt_irrefl _)⟩
  exact List.eq_of_perm_of_sorted hp hlt1 hlt2

/-- Claim C8: for a fixed directory state and stored snapshot, the outcome of
a `check` run is identical across any two runs whose OS directory listings
report the same entries in different orders (`FSP`): the diff output is a
deterministic function of path contents, independent of traversal order. -/
theorem claim_C8 (csvAbs rootAbs : List String) (m1 m2 : FMeta)
    (es1 es2 : List (String × FSNode)) (rows : List Row)
    (hwf1 : wfEntries es1 = true) (hwf2 : wfEntries es2 = true)
    (hfsp : FSP (.dir m1 es1) (.dir m2 es2)) :
    check_run csvAbs rootAbs (.dir m1 es1) rows =
      check_run csvAbs rootAbs (.dir m2 es2) rows := by
  have hsr1 : scanRoot csvAbs rootAbs (.dir m1 es1) =
      scan_node_children csvAbs rootAbs "" (.dir m1 es1) := by
    rw [scanRoot, scan_node_children]
  have hsr2 : scanRoot csvAbs rootAbs (.dir m2 es2) =
      scan_node_children csvAbs rootAbs "" (.dir m2 es2) := by
    rw [scanRoot, scan_node_children]
  rcases fsp_scan_rel hfsp csvAbs rootAbs "" with ⟨h1, h2⟩ |
    ⟨db1, db2, h1, h2, hperm⟩
  · rw [check_run, check_run, hsr1.trans h1, hsr2.trans h2]
  · have e1 : scanRoot csvAbs rootAbs (.dir m1 es1) = .ok db1 := hsr1.trans h1
    have e2 : scanRoot csvAbs rootAbs (.dir m2 es2) = .ok db2 := hsr2.trans h2
    have hnd1 : (db1.map fnameOf).Nodup := scan_fnames_nodup hwf1 e1
    have hperm_s : (sortByFilename db1).Perm (sortByFilename db2) :=
      ((List.mergeSort_perm db1 _).trans hperm).trans
        (List.mergeSort_perm db2 _).symm
    have hnd_s : ((sortByFilename db1).map fnameOf).Nodup :=
      (((List.mergeSort_perm db1 _).map fnameOf).nodup_iff).mpr hnd1
    have heq : sortByFilename db1 = sortByFilename db2 :=
      sorted_nodup_perm_eq hperm_s (sortByFilename_sorted db1)
        (sortByFilename_sorted db2) hnd_s
    rw [check_run, check_run, e1, e2]
    simp only [except_ok_bind]
    rw [heq]

/-- Claim C8 witness: the two listing orders of a two-entry directory give the
same check outcome against a header-only snapshot. -/
theorem claim_C8_witness :
    check_run ["snap"] ["root"]
        (.dir ⟨5, 4096⟩ [("a", .file ⟨1, 1⟩ true [7]), ("b", .lnk ⟨2, 3⟩ "t")])
        [["filename", "type", "mtime", "link", "size", "md5", "sha256"]] =
      check_run ["snap"] ["root"]
        (.dir ⟨5, 4096⟩ [("b", .lnk ⟨2, 3⟩ "t"), ("a", .file ⟨1, 1⟩ true [7])])
        [["filename", "type", "mtime", "link", "size", "md5", "sha256"]] :=
  claim_C8 ["snap"] ["root"] ⟨5, 4096⟩ ⟨5, 4096⟩
    [("a", .file ⟨1, 1⟩ true [7]), ("b", .lnk ⟨2, 3⟩ "t")]
    [("b", .lnk ⟨2, 3⟩ "t"), ("a", .file ⟨1, 1⟩ true [7])]
    [["filename", "type", "mtime", "link", "size", "md5", "sha256"]]
    (by simp [wfEntries, wfNode]) (by simp [wfEntries, wfNode])
    (FSP.dirSwap ⟨5, 4096⟩ ("a", .file ⟨1, 1⟩ true [7]) ("b", .lnk ⟨2, 3⟩ "t") [])

theorem entryAt_cons_ne {en : String} {et : FSNode} {l2 : List (String × FSNode)}
    {name : String} {rest : List String} (hne : en ≠ name) :
    entryAt ((en, et) :: l2) (name :: rest) = entryAt l2 (name :: rest) := by
  have hb : (en == name) = false := beq_eq_false_iff_ne.mpr hne
  cases rest with
  | nil => simp only [entryAt, List.find?, hb]
  | cons n2 r2 => simp only [entryAt, List.find?, hb]

theorem entryAt_scanned (csvAbs : List String) :
    ∀ (path dirAbs : List String) (rel : String) (l : List (String × FSNode))
      (db : List Record) (node : FSNode),
      scan_dir csvAbs dirAbs rel l = .ok db →
      entryAt l path = some node →
      (∀ p, p ≠ [] → p <+: path → dirAbs ++ p ≠ csvAbs) →
      ∃ fi ∈ db, (fnameOf fi).data =
        (path.foldl joinRel rel).data ++
          (if nodeType node = "dir" then ['/'] else []) := by
  intro path
  induction path with
  | nil =>
    intro dirAbs rel l db node hscan hat hcsv
    simp [entryAt] at hat
  | cons name rest ihp =>
    intro dirAbs rel l
    induction l with
    | nil =>
      intro db node hscan hat hcsv
      exfalso
      cases rest with
      | nil => simp [entryAt, List.find?] at hat
      | cons n2 r2 => simp [entryAt, List.find?] at hat
    | cons e l2 ihl =>
      obtain ⟨en, et⟩ := e
      intro db node hscan hat hcsv
      by_cases hex : dirAbs ++ [en] = csvAbs
      · have hne : en ≠ name := by
          intro he
          subst he
          exact hcsv [en] (by simp) ⟨rest, rfl⟩ hex
        rw [scan_dir, if_pos hex] at hscan
        exact ihl db node hscan ((entryAt_cons_ne hne) ▸ hat) hcsv
      · rw [scan_dir, if_neg hex] at hscan
        cases hFi : scan_file (joinRel rel en) et with
        | error e =>
          rw [hFi] at hscan
          simp at hscan
        | ok fi =>
          rw [hFi] at hscan
          simp only [except_ok_bind] at hscan
          cases hSub : scan_node_children csvAbs (dirAbs ++ [en]) (joinRel rel en) et with
          | error e =>
            rw [hSub] at hscan
            simp at hscan
          | ok sub =>
            rw [hSub] at hscan
            simp only [except_ok_bind] at hscan
            cases hRest : scan_dir csvAbs dirAbs rel l2 with
            | error e =>
              rw [hRest] at hscan
              simp at hscan
            | ok restDb =>
              rw [hRest] at hscan
              simp only [except_ok_bind, except_pure_eq] at hscan
              injection hscan with hdb
              subst hdb
              by_cases hen : en = name
              · subst hen
                cases rest with
                | nil =>
                  have hnode : et = node := by
                    simpa [entryAt, List.find?] using hat
                  subst hnode
                  refine ⟨fi, List.mem_cons_self _ _, ?_⟩
                  exact scan_file_fname hFi
                | cons n2 r2 =>
                  cases et with
                  | dir m children =>
                    have hat2 : entryAt children (n2 :: r2) = some node := by
                      simpa [entryAt, List.find?] using hat
                    have hSub2 : scan_dir csvAbs (dirAbs ++ [en])
                        (joinRel rel en) children = .ok sub := by
                      rw [scan_node_children] at hSub
                      exact hSub
                    have hcsv2 : ∀ p, p ≠ [] → p <+: (n2 :: r2) →
                        (dirAbs ++ [en]) ++ p ≠ csvAbs := by
                      intro p hpne hpp
                      obtain ⟨t, ht⟩ := hpp
                      have h3 := hcsv (en :: p) (by simp) ⟨t, by simp [ht]⟩
                      simpa using h3
                    obtain ⟨fi2, hmem2, hf2⟩ := ihp (dirAbs ++ [en])
                      (joinRel rel en) children sub node hSub2 hat2 hcsv2
                    exact ⟨fi2, List.mem_cons_of_mem _ (List.mem_append_left _ hmem2),
                      hf2⟩
                  | file m rd c => simp [entryAt, List.find?] at hat
                  | lnk m t => simp [entryAt, List.find?] at hat
                  | chr m => simp [entryAt, List.find?] at hat
                  | blk m => simp [entryAt, List.find?] at hat
                  | fifo m => simp [entryAt, List.find?] at hat
                  | sock m => simp [entryAt, List.find?] at hat
              · obtain ⟨fi2, hmem2, hf2⟩ := ihl restDb node hRest
                  ((entryAt_cons_ne hen) ▸ hat) hcsv
                exact ⟨fi2, List.mem_cons_of_mem _ (List.mem_append_right _ hmem2),
                  hf2⟩

/-- Claim C9: when the snapshot file's path lies inside the scanned root
(csv path = root path ++ q), no record of the scan output carries that
path's relative name (with or without the directory decoration), while every
entry whose component path differs from q — including one with the same base
name at a different location — still yields a record: exclusion is decided
by absolute-path equality, not name matching. -/
theorem claim_C9 (rootAbs q : List String) (m : FMeta)
    (entries : List (String × FSNode)) (db : List Record)
    (hq : q ≠ []) (hqv : ∀ x ∈ q, x.data ≠ [] ∧ '/' ∉ x.data)
    (hwf : wfEntries entries = true)
    (hscan : scanRoot (rootAbs ++ q) rootAbs (.dir m entries) = .ok db) :
    (∀ fi ∈ db, fnameOf fi ≠ renderRelPath q ∧
        fnameOf fi ≠ renderRelPath q ++ "/") ∧
    (∀ (path : List String) (node : FSNode),
        entryAt entries path = some node →
        (∀ p, p <+: path → p ≠ q) →
        ∃ fi ∈ db, fnameOf fi =
          renderRelPath path ++ (if nodeType node = "dir" then "/" else "")) := by
  have hscan2 : scan_dir (rootAbs ++ q) rootAbs "" entries = .ok db := by
    rw [scanRoot] at hscan
    exact hscan
  have hshape := (scan_shape_nodup (rootAbs ++ q) rootAbs "" entries [] db rfl
    (by intro x hx; simp at hx) hwf hscan2).1
  constructor
  · intro fi hfi
    obtain ⟨n, cs, opt, hnmem, hnv, hcsv, hopt, hne, hdata⟩ := hshape fi hfi
    have key : ∀ o2, (o2 = [] ∨ o2 = ['/']) →
        (fnameOf fi).data ≠ (renderRelPath q).data ++ o2 := by
      intro o2 ho2 habs
      cases q with
      | nil => exact hq rfl
      | cons mq q2 =>
        have hmq := hqv mq (List.mem_cons_self mq q2)
        have hq2v : ∀ x ∈ q2, x.data ≠ [] ∧ '/' ∉ x.data :=
          fun x hx => hqv x (List.mem_cons_of_mem mq hx)
        rw [hdata, List.nil_append] at habs
        rw [renderRelPath_cons_data n cs hnv.1,
          renderRelPath_cons_data mq q2 hmq.1] at habs
        rw [List.append_assoc, List.append_assoc] at habs
        obtain ⟨hd1, hd2⟩ := token_append_inj n.data mq.data _ _ hnv.2 hmq.2
          (relTail_opt_tailok cs opt hopt) (relTail_opt_tailok q2 o2 ho2) habs
        obtain ⟨hcs, _⟩ := relTail_opt_inj cs q2 opt o2 hcsv hq2v hopt ho2 hd2
        have hnm : n = mq := by
          cases n
          cases mq
          exact congrArg String.mk hd1
        exact hne (by rw [hnm, hcs])
    constructor
    · intro he
      exact key [] (Or.inl rfl) (by rw [he]; simp)
    · intro he
      refine key ['/'] (Or.inr rfl) ?_
      rw [he, String.data_append]
  · intro path node hat hnq
    have hcsv : ∀ p, p ≠ [] → p <+: path → rootAbs ++ p ≠ rootAbs ++ q := by
      intro p hpne hpp habs
      exact hnq p hpp (List.append_cancel_left habs)
    obtain ⟨fi, hmem, hdata⟩ := entryAt_scanned (rootAbs ++ q) path rootAbs ""
      entries db node hscan2 hat hcsv
    refine ⟨fi, hmem, ?_⟩
    have hdata2 : (fnameOf fi).data =
        (renderRelPath path ++ (if nodeType node = "dir" then "/" else "")).data := by
      rw [String.data_append, hdata]
      congr 1
      by_cases hd : nodeType node = "dir"
      · rw [if_pos hd, if_pos hd]
      · rw [if_neg hd, if_neg hd]
    cases hfn : fnameOf fi with
    | mk d =>
      rw [hfn] at hdata2
      cases hr : (renderRelPath path ++ (if nodeType node = "dir" then "/" else "")) with
      | mk d2 =>
        rw [hr] at hdata2
        exact congrArg String.mk hdata2

/-- Claim C9 witness: the snapshot `root/dircheck.csv` is skipped, while the
same-named file `root/sub/dircheck.csv` at a different location is recorded. -/
theorem claim_C9_witness :
    (∀ fi ∈ ([[("filename", "sub/"), ("type", "dir"), ("mtime", "3"),
          ("link", ""), ("size", "4096"), ("md5", ""), ("sha256", "")],
        [("filename", "sub/dircheck.csv"), ("type", "file"), ("mtime", "1"),
          ("link", ""), ("size", "1"), ("md5", "md5:[2]"),
          ("sha256", "sha256:[2]")]] : List Record),
        fnameOf fi ≠ renderRelPath ["dircheck.csv"] ∧
        fnameOf fi ≠ renderRelPath ["dircheck.csv"] ++ "/") ∧
    (∀ (path : List String) (node : FSNode),
        entryAt [("dircheck.csv", .file ⟨9, 9⟩ true [1]),
          ("sub", .dir ⟨3, 4096⟩ [("dircheck.csv", .file ⟨1, 1⟩ true [2])])]
          path = some node →
        (∀ p, p <+: path → p ≠ ["dircheck.csv"]) →
        ∃ fi ∈ ([[("filename", "sub/"), ("type", "dir"), ("mtime", "3"),
            ("link", ""), ("size", "4096"), ("md5", ""), ("sha256", "")],
          [("filename", "sub/dircheck.csv"), ("type", "file"), ("mtime", "1"),
            ("link", ""), ("size", "1"), ("md5", "md5:[2]"),
            ("sha256", "sha256:[2]")]] : List Record),
          fnameOf fi =
            renderRelPath path ++ (if nodeType node = "dir" then "/" else "")) :=
  claim_C9 ["root"] ["dircheck.csv"] ⟨0, 4096⟩
    [("dircheck.csv", .file ⟨9, 9⟩ true [1]),
     ("sub", .dir ⟨3, 4096⟩ [("dircheck.csv", .file ⟨1, 1⟩ true [2])])]
    [[("filename", "sub/"), ("type", "dir"), ("mtime", "3"),
        ("link", ""), ("size", "4096"), ("md5", ""), ("sha256", "")],
      [("filename", "sub/dircheck.csv"), ("type", "file"), ("mtime", "1"),
        ("link", ""), ("size", "1"), ("md5", "md5:[2]"),
        ("sha256", "sha256:[2]")]]
    (by decide) (by decide) (by simp [wfEntries, wfNode])
    (by simp [scanRoot, scan_dir, scan_node_children, scan_file, nodeType,
      nodeMeta, hash_file_ok, joinRel, hexdigest] <;> decide)
